import Mathlib

/-!
# Caddy Device Validator: a shallow embedding of `devicevalidator.go`

The middleware `DeviceDetector.ServeHTTP` classifies a request as mobile from its
`User-Agent`, annotates the request headers, and for HTML-looking paths buffers the
downstream response and splices a fixed script before the last `</body>`.

Go strings and byte slices are byte sequences, so both are modelled as `List UInt8`.
The Go standard-library routines the code calls (`http.Header.Get/Set`,
`strings.Contains`, `strings.HasSuffix`, `bytes.LastIndex`, `strconv.Atoi`,
`strconv.Itoa`) are modelled from their library sources.
-/

namespace DeviceValidator

/-- A Go `string` or `[]byte`: a finite sequence of bytes. -/
abbrev Bytes := List UInt8

/-- The bytes of a string literal (UTF-8, as in Go source text). -/
def lit (s : String) : Bytes := s.data.flatMap String.utf8EncodeChar

/-! ## net/textproto and net/http headers -/

/-- Go `validHeaderFieldByte`: the RFC 7230 token characters. -/
def validHeaderFieldByte (c : UInt8) : Bool :=
  let n := c.toNat
  (48 ≤ n && n ≤ 57) || (65 ≤ n && n ≤ 90) || (97 ≤ n && n ≤ 122) ||
    n = 33 || n = 35 || n = 36 || n = 37 || n = 38 || n = 39 || n = 42 || n = 43 ||
    n = 45 || n = 46 || n = 94 || n = 95 || n = 96 || n = 124 || n = 126

/-- The rewriting loop of Go `canonicalMIMEHeaderKey`: upper-case the first letter and
every letter after a dash, lower-case the others. -/
def canonLoop : Bool → Bytes → Bytes
  | _, [] => []
  | upper, c :: rest =>
    let n := c.toNat
    let c1 : UInt8 :=
      if upper && (97 ≤ n && n ≤ 122) then UInt8.ofNat (n - 32)
      else if !upper && (65 ≤ n && n ≤ 90) then UInt8.ofNat (n + 32)
      else c
    c1 :: canonLoop (c1 = 45) rest

/-- Go `textproto.CanonicalMIMEHeaderKey`: a key holding a byte that is not a valid
header field byte is returned unchanged, any other key is put in canonical case. -/
def CanonicalMIMEHeaderKey (s : Bytes) : Bytes :=
  if s.all validHeaderFieldByte then canonLoop true s else s

/-- Go `http.Header`, a `map[string][]string`: a key is absent (`none`) or bound to
its list of values. -/
abbrev Header := Bytes → Option (List Bytes)

/-- The empty header map. -/
def Header.empty : Header := fun _ => none

/-- Go `Header.Get`: the first value bound to the canonical form of `key`, or the
empty string when there is none. -/
def Header.Get (h : Header) (key : Bytes) : Bytes :=
  match h (CanonicalMIMEHeaderKey key) with
  | some (v :: _) => v
  | _ => []

/-- Go `Header.Set`: bind the canonical form of `key` to the single value `value`. -/
def Header.Set (h : Header) (key value : Bytes) : Header :=
  fun k => if k = CanonicalMIMEHeaderKey key then some [value] else h k

/-! ## strings and bytes -/

/-- Go `strings.Index`: offset of the first occurrence of `substr` in `s`, or `-1`. -/
def Index (s substr : Bytes) : Int :=
  match s with
  | [] => if substr = [] then 0 else -1
  | c :: t =>
    if substr.isPrefixOf (c :: t) then 0
    else
      let i := Index t substr
      if i = -1 then -1 else i + 1

/-- Go `strings.Contains(s, substr)`, which is `Index(s, substr) >= 0`. -/
def Contains (s substr : Bytes) : Bool := decide (Index s substr ≥ 0)

/-- Go `strings.HasSuffix`:
`len(s) >= len(suffix) && s[len(s)-len(suffix):] == suffix`. -/
def HasSuffix (s suffix : Bytes) : Bool :=
  decide (s.length ≥ suffix.length) && decide (s.drop (s.length - suffix.length) = suffix)

/-- Go `bytes.LastIndex`: offset of the last occurrence of `sep` in `s`, or `-1`
(`len(s)` for an empty `sep`). -/
def LastIndex (s sep : Bytes) : Int :=
  match s with
  | [] => if sep = [] then 0 else -1
  | c :: t =>
    let i := LastIndex t sep
    if i ≠ -1 then i + 1
    else if sep.isPrefixOf (c :: t) then 0 else -1

/-! ## strconv -/

/-- Word size of the Go `int` type on the platform (`strconv.IntSize`). -/
inductive Arch
  | w32
  | w64
  deriving DecidableEq, Repr

/-- Go `strconv.IntSize`. -/
def Arch.intSize : Arch → Nat
  | .w32 => 32
  | .w64 => 64

/-- The two errors a `strconv` parse can report. -/
inductive NumError
  | ErrSyntax
  | ErrRange
  deriving DecidableEq, Repr

/-- Conversion of an integer to a two's-complement signed integer of `bits` bits. -/
def wrapInt (bits : Nat) (x : Int) : Int :=
  (x + 2 ^ (bits - 1)) % 2 ^ bits - 2 ^ (bits - 1)

/-- Go `maxUint64`. -/
def maxUint64 : Nat := 2 ^ 64 - 1

/-- The digit loop of Go `strconv.ParseUint(s, 10, bitSize)`; `n` is the `uint64`
accumulator. In base 10 every byte other than `0`..`9` is a syntax error, and the
first overflow returns `maxVal` with a range error without reading further. -/
def parseUintLoop (maxVal : Nat) : Bytes → Nat → Nat × Option NumError
  | [], n => (n, none)
  | c :: rest, n =>
    if 48 ≤ c.toNat ∧ c.toNat ≤ 57 then
      let d := c.toNat - 48
      if n ≥ maxUint64 / 10 + 1 then (maxVal, some .ErrRange)
      else
        let n10 := (n * 10) % 2 ^ 64
        let n1 := (n10 + d) % 2 ^ 64
        if n1 < n10 ∨ n1 > maxVal then (maxVal, some .ErrRange)
        else parseUintLoop maxVal rest n1
    else (0, some .ErrSyntax)

/-- Go `strconv.ParseUint(s, 10, 0)`. -/
def ParseUint (arch : Arch) (s : Bytes) : Nat × Option NumError :=
  if s = [] then (0, some .ErrSyntax)
  else parseUintLoop (2 ^ arch.intSize - 1) s 0

/-- Go `strconv.ParseInt(s, 10, 0)`. -/
def ParseInt (arch : Arch) (s : Bytes) : Int × Option NumError :=
  match s with
  | [] => (0, some .ErrSyntax)
  | c :: rest =>
    let neg : Bool := c = 45
    let s1 := if c = 43 ∨ c = 45 then rest else c :: rest
    let (un, err) := ParseUint arch s1
    if err = some .ErrSyntax then (0, err)
    else
      let cutoff : Nat := 2 ^ (arch.intSize - 1)
      if !neg ∧ un ≥ cutoff then ((cutoff : Int) - 1, some .ErrRange)
      else if neg ∧ un > cutoff then (-(cutoff : Int), some .ErrRange)
      else
        let n := wrapInt 64 un
        (if neg then wrapInt 64 (-n) else n, none)

/-- The digit loop of the fast path of Go `strconv.Atoi`; `n` is an `int`. -/
def atoiFastLoop (arch : Arch) : Bytes → Int → Option Int
  | [], n => some n
  | ch :: rest, n =>
    let d := (ch.toNat + 256 - 48) % 256
    if d > 9 then none
    else atoiFastLoop arch rest (wrapInt arch.intSize (n * 10 + d))

/-- Go `strconv.Atoi`: the value and the error it returns together. -/
def Atoi (arch : Arch) (s : Bytes) : Int × Option NumError :=
  let sLen := s.length
  if (arch.intSize = 32 ∧ 0 < sLen ∧ sLen < 10) ∨
      (arch.intSize = 64 ∧ 0 < sLen ∧ sLen < 19) then
    match s with
    | [] => (0, some .ErrSyntax)
    | c :: rest =>
      let signed : Bool := c = 45 || c = 43
      let s1 := if signed then rest else c :: rest
      if signed ∧ s1.length < 1 then (0, some .ErrSyntax)
      else
        match atoiFastLoop arch s1 0 with
        | none => (0, some .ErrSyntax)
        | some n => (if c = 45 then wrapInt arch.intSize (-n) else n, none)
  else
    let (i64, err) := ParseInt arch s
    (wrapInt arch.intSize i64, err)

/-- Decimal digits of `u`, most significant first, pushed in front of `acc`. -/
def formatDigits : Nat → Nat → Bytes → Bytes
  | 0, _, acc => acc
  | fuel + 1, u, acc =>
    let acc1 := UInt8.ofNat (48 + u % 10) :: acc
    if u / 10 = 0 then acc1 else formatDigits fuel (u / 10) acc1

/-- Go `strconv.Itoa`: the decimal rendering of an integer, `-` in front of a
negative one. -/
def Itoa (i : Int) : Bytes :=
  if i < 0 then 45 :: formatDigits (i.natAbs + 1) i.natAbs []
  else formatDigits (i.natAbs + 1) i.natAbs []

/-! ## The script payload and the injection -/

/-- The text of the `script` constant of `injectTouchPointsJS`, line by line. -/
def scriptText : List String := [
  "\n",
  "<script>\n",
  "(function()\x7b\n",
  "  const tp = navigator.maxTouchPoints || 0;\n",
  "\n",
  "  const origFetch = window.fetch;\n",
  "  window.fetch = function(input, init)\x7b\n",
  "    init = init || \x7b\x7d;\n",
  "    init.headers = init.headers || \x7b\x7d;\n",
  "    init.headers[\x27X-DV-Touch-Points\x27] = tp.toString();\n",
  "    return origFetch(input, init);\n",
  "  \x7d;\n",
  "\n",
  "  const origXhrOpen = XMLHttpRequest.prototype.open;\n",
  "  XMLHttpRequest.prototype.open = function()\x7b\n",
  "    this.addEventListener(\x27readystatechange\x27, function()\x7b\n",
  "      this.setRequestHeader(\x27X-DV-Touch-Points\x27, tp.toString());\n",
  "    \x7d, false);\n",
  "    origXhrOpen.apply(this, arguments);\n",
  "  \x7d;\n",
  "\n",
  "  document.addEventListener(\x27submit\x27, function(e)\x7b\n",
  "    const form = e.target;\n",
  "    if(form.method.toLowerCase() === \x27post\x27)\x7b\n",
  "      let input = document.createElement(\x27input\x27);\n",
  "      input.type = \x27hidden\x27;\n",
  "      input.name = \x27X-DV-Touch-Points\x27;\n",
  "      input.value = tp.toString();\n",
  "      form.appendChild(input);\n",
  "    \x7d\n",
  "  \x7d, true);\n",
  "\x7d)();\n",
  "</script>\n",
  "</body>"]

/-- The `script` constant of `injectTouchPointsJS`, as bytes. -/
def script : Bytes := lit (String.join scriptText)

/-- The literal closing tag. -/
def bodyTag : Bytes := lit "</body>"

/-- Go `injectTouchPointsJS`. -/
def injectTouchPointsJS (content : Bytes) : Bytes :=
  let idx := LastIndex content bodyTag
  if idx ≠ -1 then
    content.take idx.toNat ++ script ++ content.drop (idx.toNat + 7)
  else
    content ++ script

/-! ## Requests, response writers and the handler -/

/-- The part of `*http.Request` the middleware touches: the header map and
`r.URL.Path`. -/
structure Request where
  Header : Header
  Path : Bytes

/-- A Go `error` value returned by a handler. -/
structure Err where
  msg : String
  deriving DecidableEq, Repr

/-- Observable state of the real `http.ResponseWriter`: the map behind `w.Header()`,
the `WriteHeader` calls and the `Write` calls it received, in order. -/
structure ResponseWriter where
  header : Header
  statusCalls : List Int
  writes : List Bytes

/-- One call a handler makes on the response writer it was given. -/
inductive WriterOp
  | mutateHeader (f : Header → Header)
  | WriteHeader (code : Int)
  | Write (p : Bytes)

/-- The behaviour of the next handler on a request: the calls it makes on its
response writer, in order, and the error it returns. -/
abbrev Handler := Request → List WriterOp × Option Err

/-- Effect of one call on the real response writer. -/
def ResponseWriter.apply (w : ResponseWriter) : WriterOp → ResponseWriter
  | .mutateHeader f => { w with header := f w.header }
  | .WriteHeader code => { w with statusCalls := w.statusCalls ++ [code] }
  | .Write p => { w with writes := w.writes ++ [p] }

/-- Go `captureResponseWriter`: the embedded real writer and the buffer. -/
structure captureResponseWriter where
  ResponseWriter : ResponseWriter
  buf : Bytes

/-- Go `captureResponseWriter.Write`: `c.buf.Write(p)`. -/
def captureResponseWriter.Write (c : captureResponseWriter) (p : Bytes) :
    captureResponseWriter :=
  { c with buf := c.buf ++ p }

/-- Effect of one call on the capturing writer: `Write` is overridden, the other
methods are promoted from the embedded real writer. -/
def captureResponseWriter.apply (c : captureResponseWriter) : WriterOp → captureResponseWriter
  | .Write p => c.Write p
  | op => { c with ResponseWriter := c.ResponseWriter.apply op }

/-- Which writer the next handler was handed. -/
inductive Sink
  | real
  | capture
  deriving DecidableEq, Repr

/-- What `ServeHTTP` leaves behind: the real writer, the request (its headers are
mutated in place), the requests handed to the next handler with the kind of writer
that went with each, and the returned error. -/
structure Result where
  w : ResponseWriter
  r : Request
  calls : List (Sink × Request)
  err : Option Err

/-- The header mutations of `ServeHTTP` on a request classified mobile. -/
def annotate (arch : Arch) (ua : Bytes) (h : Header) : Header :=
  let h := h.Set (lit "X-DV-UA") ua
  let h := h.Set (lit "X-DV-Device-Type") (lit "mobile")
  let tp := h.Get (lit "X-DV-Touch-Points")
  let tp := if tp = [] then lit "-1" else tp
  let h := h.Set (lit "X-DV-Touch-Points") tp
  let touchPoints := (Atoi arch tp).1
  if touchPoints ≤ 1 then h.Set (lit "X-DV-Suspicious-UA") (lit "true")
  else h.Set (lit "X-DV-Suspicious-UA") (lit "false")

/-- The last line of `ServeHTTP`: `return next.ServeHTTP(w, r)`. -/
def forward (w : ResponseWriter) (r : Request) (next : Handler) : Result :=
  let out := next r
  { w := out.1.foldl ResponseWriter.apply w, r := r, calls := [(Sink.real, r)], err := out.2 }

/-- Go `DeviceDetector.ServeHTTP`. -/
def ServeHTTP (arch : Arch) (w : ResponseWriter) (r : Request) (next : Handler) : Result :=
  let ua := r.Header.Get (lit "User-Agent")
  let isMobile := Contains ua (lit "Mobile")
  if isMobile then
    let r : Request := { r with Header := annotate arch ua r.Header }
    if HasSuffix r.Path (lit ".html") || HasSuffix r.Path (lit "/") then
      let crw : captureResponseWriter := { ResponseWriter := w, buf := [] }
      let out := next r
      let crw := out.1.foldl captureResponseWriter.apply crw
      match out.2 with
      | some err =>
        { w := crw.ResponseWriter, r := r, calls := [(Sink.capture, r)], err := some err }
      | none =>
        let modified := injectTouchPointsJS crw.buf
        let w1 : ResponseWriter :=
          { crw.ResponseWriter with
            header := crw.ResponseWriter.header.Set (lit "Content-Length")
              (Itoa (modified.length : Int)) }
        let w2 := w1.apply (.Write modified)
        { w := w2, r := r, calls := [(Sink.capture, r)], err := none }
    else forward w r next
  else forward w r next

/-! ## Notions used to state the properties -/

/-- The first value bound to a key, the empty string when the key is absent or bound
to no value. -/
def firstValue : Option (List Bytes) → Bytes
  | some (v :: _) => v
  | _ => []

/-- The value of the local `isMobile` of `ServeHTTP` on a request. -/
def classifiedMobile (r : Request) : Bool :=
  Contains (r.Header.Get (lit "User-Agent")) (lit "Mobile")

/-- A request whose only header is the given `User-Agent`. -/
def requestWithUA (ua path : Bytes) : Request :=
  { Header := Header.empty.Set (lit "User-Agent") ua, Path := path }

/-- The four derived headers are all present in a header map. -/
def derivedPresent (h : Header) : Prop :=
  (h (CanonicalMIMEHeaderKey (lit "X-DV-UA"))).isSome ∧
  (h (CanonicalMIMEHeaderKey (lit "X-DV-Device-Type"))).isSome ∧
  (h (CanonicalMIMEHeaderKey (lit "X-DV-Touch-Points"))).isSome ∧
  (h (CanonicalMIMEHeaderKey (lit "X-DV-Suspicious-UA"))).isSome

/-- A byte that is a decimal digit, `0` to `9`. -/
def isDigit (c : UInt8) : Prop := 48 ≤ c.toNat ∧ c.toNat ≤ 57

/-- The number a string of decimal digits denotes, continuing from `acc`. -/
def decVal : Bytes → Nat → Nat
  | [], acc => acc
  | c :: rest, acc => decVal rest (acc * 10 + (c.toNat - 48))

/-- The number of offsets of `s` at which `sep` occurs. -/
def occurrences (sep s : Bytes) : Nat :=
  (List.range (s.length + 1)).countP (fun i => sep.isPrefixOf (s.drop i))

/-- The bytes a handler writes: the arguments of its `Write` calls, concatenated in
the order of the calls. -/
def writtenBytes : List WriterOp → Bytes
  | [] => []
  | WriterOp.Write p :: rest => p ++ writtenBytes rest
  | _ :: rest => writtenBytes rest

/-- The arguments of the `Write` calls of a handler, one entry per call, in order. -/
def writeCalls : List WriterOp → List Bytes
  | [] => []
  | WriterOp.Write p :: rest => p :: writeCalls rest
  | _ :: rest => writeCalls rest

/-- The calls of a handler other than `Write`: those a capturing writer passes on to
the real writer. -/
def nonWrites : List WriterOp → List WriterOp
  | [] => []
  | WriterOp.Write _ :: rest => nonWrites rest
  | op :: rest => op :: nonWrites rest

/-- The response header map after the header mutations of a handler, applied in order
to the map `h`. -/
def headerAfter : List WriterOp → Header → Header
  | [], h => h
  | WriterOp.mutateHeader f :: rest, h => headerAfter rest (f h)
  | _ :: rest, h => headerAfter rest h

/-- No non-empty tail of `s` is a prefix of `whole`. -/
def noTailIsPrefix (whole : Bytes) : Bytes → Bool
  | [] => true
  | c :: t => !(List.isPrefixOf (c :: t) whole) && noTailIsPrefix whole t

/-- The arguments of the `WriteHeader` calls of a handler, one entry per call, in
order. -/
def statusCodes : List WriterOp → List Int
  | [] => []
  | WriterOp.WriteHeader code :: rest => code :: statusCodes rest
  | _ :: rest => statusCodes rest

/-! ## Concrete inputs -/

/-- A real response writer on which nothing has happened yet. -/
def freshWriter : ResponseWriter := { header := Header.empty, statusCalls := [], writes := [] }

/-- A next handler that writes one small HTML page and succeeds. -/
def pageHandler : Handler :=
  fun _ => ([WriterOp.Write (lit "<html><body>hi</body></html>")], none)

/-- A phone asking for `/index.html`, with no `X-DV-*` header. -/
def phoneRequest : Request :=
  requestWithUA (lit "Mozilla/5.0 (iPhone) Mobile Safari") (lit "/index.html")

/-- A desktop browser asking for `/index.html`, with no `X-DV-*` header. -/
def desktopRequest : Request :=
  requestWithUA (lit "Mozilla/5.0 (X11; Linux x86_64)") (lit "/index.html")

/-- A desktop browser whose request already carries the four `X-DV-*` headers. -/
def spoofedRequest : Request :=
  { Header := ((((Header.empty.Set (lit "User-Agent") (lit "Mozilla/5.0 (X11; Linux x86_64)")).Set
      (lit "X-DV-UA") (lit "x")).Set (lit "X-DV-Device-Type") (lit "mobile")).Set
      (lit "X-DV-Touch-Points") (lit "5")).Set (lit "X-DV-Suspicious-UA") (lit "false"),
    Path := lit "/index.html" }

/-- A phone asking for `/index.html` with the given `X-DV-Touch-Points` value. -/
def phoneRequestWithTouchPoints (tp : Bytes) : Request :=
  { phoneRequest with Header := phoneRequest.Header.Set (lit "X-DV-Touch-Points") tp }

/-- A next handler that sets its own `Content-Length`, writes a small HTML page in two
pieces and succeeds. -/
def chunkedHandler : Handler :=
  fun _ => ([WriterOp.mutateHeader (fun h => h.Set (lit "Content-Length") (lit "28")),
    WriterOp.Write (lit "<html><body>hi"), WriterOp.Write (lit "</body></html>")], none)

/-- A phone asking for `/data.json`, with no `X-DV-*` header. -/
def phoneDataRequest : Request :=
  requestWithUA (lit "Mozilla/5.0 (iPhone) Mobile Safari") (lit "/data.json")

/-- A next handler that sets `Content-Type`, writes half a page and fails. -/
def failingHandler : Handler :=
  fun _ => ([WriterOp.mutateHeader (fun h => h.Set (lit "Content-Type") (lit "text/html")),
    WriterOp.Write (lit "<html><body>hi")], some { msg := "upstream failed" })

/-- A next handler that sets `Content-Type` and `Content-Length`, writes a small HTML
page and succeeds. -/
def typedHandler : Handler :=
  fun _ => ([WriterOp.mutateHeader (fun h => h.Set (lit "Content-Type") (lit "text/html")),
    WriterOp.mutateHeader (fun h => h.Set (lit "Content-Length") (lit "28")),
    WriterOp.Write (lit "<html><body>hi</body></html>")], none)

/-- A next handler that sends status 502, sets `Content-Type`, writes a short body and
fails. -/
def badGatewayHandler : Handler :=
  fun _ => ([WriterOp.WriteHeader 502,
    WriterOp.mutateHeader (fun h => h.Set (lit "Content-Type") (lit "text/plain")),
    WriterOp.Write (lit "bad gateway")], some { msg := "bad gateway" })

/-! ## Header lemmas -/

theorem Header.Set_same (h : Header) (key v : Bytes) :
    (h.Set key v) (CanonicalMIMEHeaderKey key) = some [v] := by
  simp [Header.Set]

theorem Header.Set_other (h : Header) (key v k : Bytes)
    (hk : k ≠ CanonicalMIMEHeaderKey key) : (h.Set key v) k = h k := by
  simp [Header.Set, hk]

theorem canon_userAgent : CanonicalMIMEHeaderKey (lit "User-Agent") = lit "User-Agent" := by
  decide

theorem canon_ua : CanonicalMIMEHeaderKey (lit "X-DV-UA") = lit "X-Dv-Ua" := by decide

theorem canon_deviceType :
    CanonicalMIMEHeaderKey (lit "X-DV-Device-Type") = lit "X-Dv-Device-Type" := by decide

theorem canon_touchPoints :
    CanonicalMIMEHeaderKey (lit "X-DV-Touch-Points") = lit "X-Dv-Touch-Points" := by decide

theorem canon_suspicious :
    CanonicalMIMEHeaderKey (lit "X-DV-Suspicious-UA") = lit "X-Dv-Suspicious-Ua" := by decide

theorem canon_contentLength :
    CanonicalMIMEHeaderKey (lit "Content-Length") = lit "Content-Length" := by decide

/-! ## Substring search -/

theorem Index_ge_neg_one (s substr : Bytes) : -1 ≤ Index s substr := by
  induction s with
  | nil => unfold Index; split <;> omega
  | cons c t ih =>
    unfold Index
    split
    · omega
    · simp only []
      split <;> omega

theorem Index_eq_neg_one_iff (s substr : Bytes) :
    Index s substr = -1 ↔ ¬ substr <:+: s := by
  induction s with
  | nil =>
    unfold Index
    by_cases h : substr = []
    · simp [h]
    · simp [h]
  | cons c t ih =>
    unfold Index
    rw [List.infix_cons_iff]
    by_cases hp : substr.isPrefixOf (c :: t) = true
    · have hp1 : substr <+: c :: t := List.isPrefixOf_iff_prefix.mp hp
      simp [hp, hp1]
    · have hp1 : ¬ substr <+: c :: t := fun h => hp (List.isPrefixOf_iff_prefix.mpr h)
      have hge := Index_ge_neg_one t substr
      simp only [hp, hp1, false_or, if_false, Bool.false_eq_true]
      rw [← ih]
      constructor
      · intro h
        by_contra hne
        simp [hne] at h
        omega
      · intro h
        simp [h]

theorem Contains_iff (s substr : Bytes) : Contains s substr = true ↔ substr <:+: s := by
  unfold Contains
  have h1 := Index_ge_neg_one s substr
  have h2 := Index_eq_neg_one_iff s substr
  rw [decide_eq_true_iff]
  constructor
  · intro h
    by_contra hn
    have := h2.mpr hn
    omega
  · intro h
    by_contra hn
    have : Index s substr = -1 := by omega
    exact (h2.mp this) h


/-! ## The request after `ServeHTTP` -/

theorem key_ua_ne_deviceType : CanonicalMIMEHeaderKey (lit "X-DV-UA") ≠
    CanonicalMIMEHeaderKey (lit "X-DV-Device-Type") := by decide

theorem key_ua_ne_touchPoints : CanonicalMIMEHeaderKey (lit "X-DV-UA") ≠
    CanonicalMIMEHeaderKey (lit "X-DV-Touch-Points") := by decide

theorem key_ua_ne_suspicious : CanonicalMIMEHeaderKey (lit "X-DV-UA") ≠
    CanonicalMIMEHeaderKey (lit "X-DV-Suspicious-UA") := by decide

theorem key_deviceType_ne_touchPoints : CanonicalMIMEHeaderKey (lit "X-DV-Device-Type") ≠
    CanonicalMIMEHeaderKey (lit "X-DV-Touch-Points") := by decide

theorem key_deviceType_ne_suspicious : CanonicalMIMEHeaderKey (lit "X-DV-Device-Type") ≠
    CanonicalMIMEHeaderKey (lit "X-DV-Suspicious-UA") := by decide

theorem key_touchPoints_ne_suspicious : CanonicalMIMEHeaderKey (lit "X-DV-Touch-Points") ≠
    CanonicalMIMEHeaderKey (lit "X-DV-Suspicious-UA") := by decide

theorem Header.Get_eq_firstValue (h : Header) (key : Bytes) :
    h.Get key = firstValue (h (CanonicalMIMEHeaderKey key)) := by
  unfold Header.Get firstValue
  split <;> simp_all

theorem Header.Get_Set_other (h : Header) (key v key2 : Bytes)
    (hk : CanonicalMIMEHeaderKey key2 ≠ CanonicalMIMEHeaderKey key) :
    (h.Set key v).Get key2 = h.Get key2 := by
  simp [Header.Get, Header.Set, hk]

/-- The effective touch-point value of a header map: its first `X-DV-Touch-Points`
value, `-1` when that is empty. -/
theorem annotate_eq (arch : Arch) (ua : Bytes) (h : Header) :
    annotate arch ua h =
      (((h.Set (lit "X-DV-UA") ua).Set (lit "X-DV-Device-Type") (lit "mobile")).Set
        (lit "X-DV-Touch-Points")
        (if h.Get (lit "X-DV-Touch-Points") = [] then lit "-1"
          else h.Get (lit "X-DV-Touch-Points"))).Set
        (lit "X-DV-Suspicious-UA")
        (if (Atoi arch (if h.Get (lit "X-DV-Touch-Points") = [] then lit "-1"
            else h.Get (lit "X-DV-Touch-Points"))).1 ≤ 1 then lit "true" else lit "false") := by
  have e : ((h.Set (lit "X-DV-UA") ua).Set (lit "X-DV-Device-Type") (lit "mobile")).Get
      (lit "X-DV-Touch-Points") = h.Get (lit "X-DV-Touch-Points") := by
    rw [Header.Get_Set_other _ _ _ _ key_deviceType_ne_touchPoints.symm,
      Header.Get_Set_other _ _ _ _ key_ua_ne_touchPoints.symm]
  unfold annotate
  simp only [e]
  split_ifs <;> rfl

theorem annotate_ua (arch : Arch) (ua : Bytes) (h : Header) :
    annotate arch ua h (CanonicalMIMEHeaderKey (lit "X-DV-UA")) = some [ua] := by
  rw [annotate_eq]
  simp [Header.Set, key_ua_ne_deviceType, key_ua_ne_touchPoints, key_ua_ne_suspicious]

theorem annotate_deviceType (arch : Arch) (ua : Bytes) (h : Header) :
    annotate arch ua h (CanonicalMIMEHeaderKey (lit "X-DV-Device-Type")) =
      some [lit "mobile"] := by
  rw [annotate_eq]
  simp [Header.Set, key_deviceType_ne_touchPoints, key_deviceType_ne_suspicious]

theorem annotate_touchPoints (arch : Arch) (ua : Bytes) (h : Header) :
    annotate arch ua h (CanonicalMIMEHeaderKey (lit "X-DV-Touch-Points")) =
      some [if h.Get (lit "X-DV-Touch-Points") = [] then lit "-1"
            else h.Get (lit "X-DV-Touch-Points")] := by
  rw [annotate_eq]
  simp [Header.Set, key_touchPoints_ne_suspicious]

theorem annotate_suspicious (arch : Arch) (ua : Bytes) (h : Header) :
    annotate arch ua h (CanonicalMIMEHeaderKey (lit "X-DV-Suspicious-UA")) =
      some [if (Atoi arch (if h.Get (lit "X-DV-Touch-Points") = [] then lit "-1"
            else h.Get (lit "X-DV-Touch-Points"))).1 ≤ 1 then lit "true" else lit "false"] := by
  rw [annotate_eq]
  simp [Header.Set]

theorem ServeHTTP_r (arch : Arch) (w : ResponseWriter) (r : Request) (next : Handler) :
    (ServeHTTP arch w r next).r =
      if classifiedMobile r = true then
        { r with Header := annotate arch (r.Header.Get (lit "User-Agent")) r.Header }
      else r := by
  unfold ServeHTTP classifiedMobile forward
  simp only []
  split
  · split
    · split <;> rfl
    · rfl
  · rfl

theorem ServeHTTP_calls (arch : Arch) (w : ResponseWriter) (r : Request) (next : Handler) :
    ∃ s, (ServeHTTP arch w r next).calls = [(s, (ServeHTTP arch w r next).r)] := by
  unfold ServeHTTP forward
  simp only []
  split
  · split
    · split <;> exact ⟨Sink.capture, rfl⟩
    · exact ⟨Sink.real, rfl⟩
  · exact ⟨Sink.real, rfl⟩

theorem ServeHTTP_not_mobile (arch : Arch) (w : ResponseWriter) (r : Request) (next : Handler)
    (h : classifiedMobile r = false) :
    ServeHTTP arch w r next = forward w r next := by
  unfold classifiedMobile at h
  unfold ServeHTTP
  simp [h]

/-! ## Classification and annotation (C1 to C3) -/

theorem classifiedMobile_iff (r : Request) :
    classifiedMobile r = true ↔
      lit "Mobile" <:+: firstValue (r.Header (lit "User-Agent")) := by
  unfold classifiedMobile
  rw [Contains_iff, Header.Get_eq_firstValue, canon_userAgent]

theorem ServeHTTP_r_mobile (arch : Arch) (w : ResponseWriter) (r : Request) (next : Handler)
    (h : classifiedMobile r = true) :
    (ServeHTTP arch w r next).r.Header =
      annotate arch (firstValue (r.Header (lit "User-Agent"))) r.Header := by
  rw [ServeHTTP_r, if_pos h, Header.Get_eq_firstValue, canon_userAgent]

theorem ServeHTTP_r_not_mobile (arch : Arch) (w : ResponseWriter) (r : Request)
    (next : Handler) (h : classifiedMobile r = false) :
    (ServeHTTP arch w r next).r = r := by
  rw [ServeHTTP_r, if_neg (by simp [h])]

/-- C1: a request is classified mobile exactly when the first `User-Agent` value (the
empty string when absent) contains the bytes `Mobile` anywhere, case-sensitively
(`MobileX` and `NonMobile` match, `mobile` does not); and a request so classified
carries, after `ServeHTTP`, `X-DV-UA` equal to that value, `X-DV-Device-Type` equal to
`mobile`, a non-empty `X-DV-Touch-Points` and `X-DV-Suspicious-UA` equal to `true` or
`false`. -/
theorem mobile_classification_sets_derived_headers (arch : Arch) (w : ResponseWriter)
    (r : Request) (next : Handler) :
    (classifiedMobile r = true ↔
      lit "Mobile" <:+: firstValue (r.Header (lit "User-Agent"))) ∧
    classifiedMobile (requestWithUA (lit "MobileX") []) = true ∧
    classifiedMobile (requestWithUA (lit "NonMobile") []) = true ∧
    classifiedMobile (requestWithUA (lit "mobile") []) = false ∧
    (classifiedMobile r = true →
      (ServeHTTP arch w r next).r.Header (CanonicalMIMEHeaderKey (lit "X-DV-UA")) =
        some [firstValue (r.Header (lit "User-Agent"))] ∧
      (ServeHTTP arch w r next).r.Header (CanonicalMIMEHeaderKey (lit "X-DV-Device-Type")) =
        some [lit "mobile"] ∧
      (∃ v, v ≠ [] ∧
        (ServeHTTP arch w r next).r.Header (CanonicalMIMEHeaderKey (lit "X-DV-Touch-Points")) =
          some [v]) ∧
      ((ServeHTTP arch w r next).r.Header (CanonicalMIMEHeaderKey (lit "X-DV-Suspicious-UA")) =
          some [lit "true"] ∨
        (ServeHTTP arch w r next).r.Header (CanonicalMIMEHeaderKey (lit "X-DV-Suspicious-UA")) =
          some [lit "false"])) := by
  refine ⟨classifiedMobile_iff r, by decide, by decide, by decide, ?_⟩
  intro h
  rw [ServeHTTP_r_mobile arch w r next h]
  refine ⟨annotate_ua _ _ _, annotate_deviceType _ _ _, ?_, ?_⟩
  · refine ⟨_, ?_, annotate_touchPoints _ _ _⟩
    split
    · decide
    · assumption
  · rw [annotate_suspicious]
    by_cases hle : (Atoi arch (if r.Header.Get (lit "X-DV-Touch-Points") = [] then lit "-1"
        else r.Header.Get (lit "X-DV-Touch-Points"))).1 ≤ 1
    · exact Or.inl (by rw [if_pos hle])
    · exact Or.inr (by rw [if_neg hle])

/-- C1 at a phone request: it is classified mobile and comes out with `X-DV-UA` equal
to its `User-Agent` and `X-DV-Device-Type` equal to `mobile`. -/
theorem mobile_classification_sets_derived_headers_witness :
    classifiedMobile phoneRequest = true ∧
    (ServeHTTP Arch.w64 freshWriter phoneRequest pageHandler).r.Header
        (CanonicalMIMEHeaderKey (lit "X-DV-UA")) =
      some [firstValue (phoneRequest.Header (lit "User-Agent"))] ∧
    (ServeHTTP Arch.w64 freshWriter phoneRequest pageHandler).r.Header
        (CanonicalMIMEHeaderKey (lit "X-DV-Device-Type")) = some [lit "mobile"] :=
  have hm : classifiedMobile phoneRequest = true := by decide
  have h := (mobile_classification_sets_derived_headers Arch.w64 freshWriter phoneRequest
    pageHandler).2.2.2.2 hm
  ⟨hm, h.1, h.2.1⟩

/-- C2: when the `User-Agent` does not contain `Mobile`, the next handler is handed
the real writer and the request exactly as received, and the request is left as it
was: no header is added, removed or modified, whatever headers it carried. -/
theorem non_mobile_request_unchanged (arch : Arch) (w : ResponseWriter) (r : Request)
    (next : Handler)
    (h : ¬ lit "Mobile" <:+: firstValue (r.Header (lit "User-Agent"))) :
    (ServeHTTP arch w r next).calls = [(Sink.real, r)] ∧
    (ServeHTTP arch w r next).r = r ∧
    (ServeHTTP arch w r next).r.Header = r.Header := by
  have hm : classifiedMobile r = false := by
    rw [← classifiedMobile_iff] at h
    simpa using h
  rw [ServeHTTP_not_mobile arch w r next hm]
  exact ⟨rfl, rfl, rfl⟩

/-- C2 at a desktop request that already carries the four `X-DV-*` headers. -/
theorem non_mobile_request_unchanged_witness :
    ¬ lit "Mobile" <:+: firstValue (spoofedRequest.Header (lit "User-Agent")) ∧
    (ServeHTTP Arch.w64 freshWriter spoofedRequest pageHandler).calls =
      [(Sink.real, spoofedRequest)] ∧
    (ServeHTTP Arch.w64 freshWriter spoofedRequest pageHandler).r.Header =
      spoofedRequest.Header :=
  have hn : ¬ lit "Mobile" <:+: firstValue (spoofedRequest.Header (lit "User-Agent")) := by
    rw [← classifiedMobile_iff]
    decide
  have h := non_mobile_request_unchanged Arch.w64 freshWriter spoofedRequest pageHandler hn
  ⟨hn, h.1, h.2.2⟩

/-- C3 fails as stated: a desktop request that arrives with the four `X-DV-*` headers
is not classified mobile, yet the request seen by the next handler carries all four,
`X-DV-Device-Type: mobile` among them. -/
theorem derived_headers_iff_mobile_counterexample :
    (ServeHTTP Arch.w64 freshWriter spoofedRequest pageHandler).calls =
      [(Sink.real, (ServeHTTP Arch.w64 freshWriter spoofedRequest pageHandler).r)] ∧
    classifiedMobile spoofedRequest = false ∧
    derivedPresent (ServeHTTP Arch.w64 freshWriter spoofedRequest pageHandler).r.Header ∧
    (ServeHTTP Arch.w64 freshWriter spoofedRequest pageHandler).r.Header
      (CanonicalMIMEHeaderKey (lit "X-DV-Device-Type")) = some [lit "mobile"] ∧
    ¬ (derivedPresent (ServeHTTP Arch.w64 freshWriter spoofedRequest pageHandler).r.Header ↔
        classifiedMobile spoofedRequest = true) := by
  have hm : classifiedMobile spoofedRequest = false := by decide
  have hr := ServeHTTP_r_not_mobile Arch.w64 freshWriter spoofedRequest pageHandler hm
  have hp : derivedPresent spoofedRequest.Header := by
    unfold derivedPresent
    decide
  rw [ServeHTTP_not_mobile Arch.w64 freshWriter spoofedRequest pageHandler hm]
  refine ⟨rfl, hm, hp, by decide, ?_⟩
  intro hiff
  have := hiff.mp hp
  rw [hm] at this
  exact Bool.noConfusion this

/-- C3, amended: the next handler is called with the request as `ServeHTTP` leaves it;
on a request classified mobile that request carries the four derived headers, with
`X-DV-Device-Type` equal to `mobile`; on any other request its header map is the one
received. So the four headers are present if and only if the request was classified
mobile whenever the request did not arrive with all four, and `X-DV-Device-Type` is
absent on a non-mobile request that did not carry it. -/
theorem derived_headers_iff_mobile_unless_received (arch : Arch) (w : ResponseWriter)
    (r : Request) (next : Handler) :
    (∃ s, (ServeHTTP arch w r next).calls = [(s, (ServeHTTP arch w r next).r)]) ∧
    (classifiedMobile r = true →
      derivedPresent (ServeHTTP arch w r next).r.Header ∧
      (ServeHTTP arch w r next).r.Header (CanonicalMIMEHeaderKey (lit "X-DV-Device-Type")) =
        some [lit "mobile"]) ∧
    (classifiedMobile r = false → (ServeHTTP arch w r next).r.Header = r.Header) ∧
    (¬ derivedPresent r.Header →
      (derivedPresent (ServeHTTP arch w r next).r.Header ↔ classifiedMobile r = true)) ∧
    (r.Header (CanonicalMIMEHeaderKey (lit "X-DV-Device-Type")) = none →
      classifiedMobile r = false →
      (ServeHTTP arch w r next).r.Header (CanonicalMIMEHeaderKey (lit "X-DV-Device-Type")) =
        none) := by
  have hmob : classifiedMobile r = true →
      derivedPresent (ServeHTTP arch w r next).r.Header ∧
      (ServeHTTP arch w r next).r.Header (CanonicalMIMEHeaderKey (lit "X-DV-Device-Type")) =
        some [lit "mobile"] := by
    intro h
    rw [ServeHTTP_r_mobile arch w r next h]
    unfold derivedPresent
    rw [annotate_ua, annotate_deviceType, annotate_touchPoints, annotate_suspicious]
    exact ⟨⟨rfl, rfl, rfl, rfl⟩, rfl⟩
  have hnot : classifiedMobile r = false → (ServeHTTP arch w r next).r.Header = r.Header := by
    intro h
    rw [ServeHTTP_r_not_mobile arch w r next h]
  refine ⟨ServeHTTP_calls arch w r next, hmob, hnot, ?_, ?_⟩
  · intro hnp
    constructor
    · intro hp
      by_contra hc
      have hf : classifiedMobile r = false := by simpa using hc
      rw [hnot hf] at hp
      exact hnp hp
    · intro h
      exact (hmob h).1
  · intro hnone hf
    rw [hnot hf]
    exact hnone

/-- C3 amended, at a phone request and at a desktop request, both arriving without
`X-DV-*` headers. -/
theorem derived_headers_iff_mobile_unless_received_witness :
    (classifiedMobile phoneRequest = true ∧
      derivedPresent (ServeHTTP Arch.w64 freshWriter phoneRequest pageHandler).r.Header) ∧
    (desktopRequest.Header (CanonicalMIMEHeaderKey (lit "X-DV-Device-Type")) = none ∧
      classifiedMobile desktopRequest = false ∧
      (ServeHTTP Arch.w64 freshWriter desktopRequest pageHandler).r.Header
        (CanonicalMIMEHeaderKey (lit "X-DV-Device-Type")) = none) :=
  have hm : classifiedMobile phoneRequest = true := by decide
  have hd : classifiedMobile desktopRequest = false := by decide
  have hn : desktopRequest.Header (CanonicalMIMEHeaderKey (lit "X-DV-Device-Type")) = none := by
    decide
  ⟨⟨hm, ((derived_headers_iff_mobile_unless_received Arch.w64 freshWriter phoneRequest
      pageHandler).2.1 hm).1⟩,
    hn, hd,
    (derived_headers_iff_mobile_unless_received Arch.w64 freshWriter desktopRequest
      pageHandler).2.2.2.2 hn hd⟩

/-! ## Decimal rendering and parsing -/

theorem decVal_append (a b : Bytes) (n : Nat) : decVal (a ++ b) n = decVal b (decVal a n) := by
  induction a generalizing n with
  | nil => rfl
  | cons c rest ih => exact ih (n * 10 + (c.toNat - 48))

theorem le_decVal (ds : Bytes) (n : Nat) : n ≤ decVal ds n := by
  induction ds generalizing n with
  | nil => exact Nat.le_refl _
  | cons c rest ih =>
    simp only [decVal]
    have := ih (n * 10 + (c.toNat - 48))
    omega

theorem decVal_lt (ds : Bytes) (hd : ∀ c ∈ ds, isDigit c) (n : Nat) :
    decVal ds n < (n + 1) * 10 ^ ds.length := by
  induction ds generalizing n with
  | nil => simp [decVal]
  | cons c rest ih =>
    have hc := hd c (List.mem_cons_self _ _)
    have hrest : ∀ x ∈ rest, isDigit x := fun x hx => hd x (List.mem_cons_of_mem _ hx)
    have h1 := ih hrest (n * 10 + (c.toNat - 48))
    have h2 : (n * 10 + (c.toNat - 48) + 1) * 10 ^ rest.length ≤
        ((n + 1) * 10) * 10 ^ rest.length := by
      apply Nat.mul_le_mul_right
      unfold isDigit at hc
      omega
    simp only [decVal, List.length_cons, pow_succ]
    calc decVal rest (n * 10 + (c.toNat - 48))
        < (n * 10 + (c.toNat - 48) + 1) * 10 ^ rest.length := h1
      _ ≤ ((n + 1) * 10) * 10 ^ rest.length := h2
      _ = (n + 1) * (10 ^ rest.length * 10) := by ring

theorem digitByte_toNat (x : Nat) (h : x < 10) : (UInt8.ofNat (48 + x)).toNat = 48 + x := by
  simp [UInt8.ofNat, UInt8.toNat]
  omega

theorem formatDigits_spec (fuel : Nat) : ∀ (u : Nat) (acc : Bytes), u < fuel →
    ∃ ds, formatDigits fuel u acc = ds ++ acc ∧ ds ≠ [] ∧ (∀ c ∈ ds, isDigit c) ∧
      decVal ds 0 = u := by
  induction fuel with
  | zero => intro u acc h; omega
  | succ fuel ih =>
    intro u acc h
    have hb := digitByte_toNat (u % 10) (Nat.mod_lt _ (by norm_num))
    have hdig : isDigit (UInt8.ofNat (48 + u % 10)) := by
      unfold isDigit
      omega
    unfold formatDigits
    by_cases h0 : u / 10 = 0
    · refine ⟨[UInt8.ofNat (48 + u % 10)], by simp [h0], by simp, ?_, ?_⟩
      · intro c hc
        rw [List.mem_singleton] at hc
        rw [hc]
        exact hdig
      · simp only [decVal, hb]
        omega
    · obtain ⟨ds, h1, _, h3, h4⟩ := ih (u / 10) (UInt8.ofNat (48 + u % 10) :: acc) (by omega)
      refine ⟨ds ++ [UInt8.ofNat (48 + u % 10)], by simp [h0, h1], by simp, ?_, ?_⟩
      · intro c hc
        rw [List.mem_append, List.mem_singleton] at hc
        rcases hc with hc | hc
        · exact h3 c hc
        · rw [hc]
          exact hdig
      · rw [decVal_append, h4]
        simp only [decVal, hb]
        omega

/-- The shape of a decimal rendering: an optional `-` followed by the digits of the
absolute value. -/
theorem Itoa_spec (v : Int) :
    ∃ ds, ds ≠ [] ∧ (∀ c ∈ ds, isDigit c) ∧ decVal ds 0 = v.natAbs ∧
      Itoa v = if v < 0 then 45 :: ds else ds := by
  obtain ⟨ds, h1, h2, h3, h4⟩ := formatDigits_spec (v.natAbs + 1) v.natAbs [] (by omega)
  refine ⟨ds, h2, h3, h4, ?_⟩
  unfold Itoa
  rw [h1, List.append_nil]

theorem wrapInt_of_range (arch : Arch) (x : Int)
    (h1 : -(2 ^ (arch.intSize - 1) : Int) ≤ x) (h2 : x < 2 ^ (arch.intSize - 1)) :
    wrapInt arch.intSize x = x := by
  unfold wrapInt
  cases arch <;> simp only [Arch.intSize] at * <;> norm_num at * <;> omega

theorem atoiFastLoop_digits (arch : Arch) (ds : Bytes) (hd : ∀ c ∈ ds, isDigit c) :
    ∀ n : Nat, decVal ds n < 2 ^ (arch.intSize - 1) →
      atoiFastLoop arch ds (n : Int) = some (decVal ds n : Int) := by
  induction ds with
  | nil => intro n _; rfl
  | cons c rest ih =>
    intro n hn
    have hc := hd c (List.mem_cons_self _ _)
    have hrest : ∀ x ∈ rest, isDigit x := fun x hx => hd x (List.mem_cons_of_mem _ hx)
    unfold isDigit at hc
    have hdval : (c.toNat + 256 - 48) % 256 = c.toNat - 48 := by omega
    simp only [decVal] at hn ⊢
    have hle := le_decVal rest (n * 10 + (c.toNat - 48))
    unfold atoiFastLoop
    simp only [hdval]
    rw [if_neg (by omega)]
    have hcast : ((n : Int) * 10 + ((c.toNat - 48 : Nat) : Int)) =
        ((n * 10 + (c.toNat - 48) : Nat) : Int) := by push_cast; rfl
    rw [hcast, wrapInt_of_range arch _ (by
      have : (0 : Int) ≤ ((n * 10 + (c.toNat - 48) : Nat) : Int) := Int.natCast_nonneg _
      have : (0 : Int) < 2 ^ (arch.intSize - 1) := by positivity
      omega) (by exact_mod_cast lt_of_le_of_lt hle hn)]
    exact ih hrest _ hn

theorem parseUintLoop_digits (maxVal : Nat) (hmax : maxVal ≤ 2 ^ 64 - 1) (ds : Bytes)
    (hd : ∀ c ∈ ds, isDigit c) :
    ∀ n : Nat, n ≤ maxVal →
      parseUintLoop maxVal ds n =
        if decVal ds n ≤ maxVal then (decVal ds n, none) else (maxVal, some NumError.ErrRange) := by
  induction ds with
  | nil =>
    intro n hn
    simp [parseUintLoop, decVal, hn]
  | cons c rest ih =>
    intro n hn
    have hc := hd c (List.mem_cons_self _ _)
    have hrest : ∀ x ∈ rest, isDigit x := fun x hx => hd x (List.mem_cons_of_mem _ hx)
    unfold isDigit at hc
    have hle := le_decVal rest (n * 10 + (c.toNat - 48))
    have hcut : maxUint64 / 10 + 1 = 1844674407370955162 := by norm_num [maxUint64]
    have h64 : (2 : Nat) ^ 64 = 18446744073709551616 := by norm_num
    rw [h64] at hmax
    unfold parseUintLoop
    simp only [decVal, hcut, h64]
    rw [if_pos hc]
    by_cases h1 : n ≥ 1844674407370955162
    · rw [if_pos h1, if_neg (by omega)]
    · rw [if_neg h1]
      have hm : n * 10 % 18446744073709551616 = n * 10 := Nat.mod_eq_of_lt (by omega)
      rw [hm]
      by_cases h2 : n * 10 + (c.toNat - 48) ≤ maxVal
      · have hm2 : (n * 10 + (c.toNat - 48)) % 18446744073709551616 =
            n * 10 + (c.toNat - 48) := Nat.mod_eq_of_lt (by omega)
        rw [hm2, if_neg (by omega)]
        exact ih hrest _ h2
      · rw [if_pos (by omega), if_neg (by omega)]
theorem ParseUint_digits (arch : Arch) (ds : Bytes) (hne : ds ≠ [])
    (hd : ∀ c ∈ ds, isDigit c) :
    ParseUint arch ds =
      if decVal ds 0 ≤ 2 ^ arch.intSize - 1 then (decVal ds 0, none)
      else (2 ^ arch.intSize - 1, some NumError.ErrRange) := by
  unfold ParseUint
  rw [if_neg hne]
  apply parseUintLoop_digits _ _ ds hd 0 (Nat.zero_le _)
  cases arch <;> simp only [Arch.intSize] <;> norm_num

theorem digit_ne_sign (c : UInt8) (hc : isDigit c) : c ≠ 45 ∧ c ≠ 43 := by
  unfold isDigit at hc
  constructor
  · intro h
    rw [h] at hc
    revert hc
    decide
  · intro h
    rw [h] at hc
    revert hc
    decide
theorem ParseInt_digits (arch : Arch) (ds : Bytes) (hne : ds ≠ [])
    (hd : ∀ c ∈ ds, isDigit c) :
    ParseInt arch ds =
      if decVal ds 0 < 2 ^ (arch.intSize - 1) then ((decVal ds 0 : Int), none)
      else ((2 ^ (arch.intSize - 1) : Int) - 1, some NumError.ErrRange) := by
  obtain ⟨c, rest, rfl⟩ := List.exists_cons_of_ne_nil hne
  have hc := digit_ne_sign c (hd c (List.mem_cons_self _ _))
  have hu := ParseUint_digits arch (c :: rest) hne hd
  unfold ParseInt
  simp only [hc.1, hc.2, or_self, if_false, decide_False]
  rw [hu]
  generalize decVal (c :: rest) 0 = n
  unfold wrapInt
  have e63 : (2 : Int) ^ (64 - 1) = 9223372036854775808 := by norm_num
  have e64 : (2 : Int) ^ 64 = 18446744073709551616 := by norm_num
  rw [e63, e64]
  cases arch <;> simp only [Arch.intSize]
  · have e31 : (2 : Nat) ^ (32 - 1) = 2147483648 := by norm_num
    have e32 : (2 : Nat) ^ 32 - 1 = 4294967295 := by norm_num
    have e31i : (2 : Int) ^ (32 - 1) = 2147483648 := by norm_num
    rw [e31, e32, e31i]
    by_cases h1 : n ≤ 4294967295
    · simp only [if_pos h1]
      by_cases h2 : n < 2147483648
      · rw [if_neg (by simp), if_neg (by simp; omega), if_neg (by simp), if_pos h2]
        simp only [Bool.false_eq_true, if_false, Prod.mk.injEq, and_true]
        omega
      · rw [if_neg (by simp), if_pos (by simp; omega), if_neg h2]
        rfl
    · simp only [if_neg h1]
      rw [if_neg (by simp), if_pos (by simp), if_neg (by omega)]
      rfl
  · have e31 : (2 : Nat) ^ (64 - 1) = 9223372036854775808 := by norm_num
    have e32 : (2 : Nat) ^ 64 - 1 = 18446744073709551615 := by norm_num
    rw [e31, e32, e63]
    by_cases h1 : n ≤ 18446744073709551615
    · simp only [if_pos h1]
      by_cases h2 : n < 9223372036854775808
      · rw [if_neg (by simp), if_neg (by simp; omega), if_neg (by simp), if_pos h2]
        simp only [Bool.false_eq_true, if_false, Prod.mk.injEq, and_true]
        omega
      · rw [if_neg (by simp), if_pos (by simp; omega), if_neg h2]
        rfl
    · simp only [if_neg h1]
      rw [if_neg (by simp), if_pos (by simp), if_neg (by omega)]
      rfl
theorem ParseInt_neg_digits (arch : Arch) (ds : Bytes) (hne : ds ≠ [])
    (hd : ∀ c ∈ ds, isDigit c) :
    ParseInt arch (45 :: ds) =
      if decVal ds 0 ≤ 2 ^ (arch.intSize - 1) then (-(decVal ds 0 : Int), none)
      else (-(2 ^ (arch.intSize - 1) : Int), some NumError.ErrRange) := by
  have hu := ParseUint_digits arch ds hne hd
  unfold ParseInt
  simp only [or_true, if_true, decide_True]
  rw [hu]
  generalize decVal ds 0 = n
  unfold wrapInt
  have e63 : (2 : Int) ^ (64 - 1) = 9223372036854775808 := by norm_num
  have e64 : (2 : Int) ^ 64 = 18446744073709551616 := by norm_num
  rw [e63, e64]
  cases arch <;> simp only [Arch.intSize]
  · have e31 : (2 : Nat) ^ (32 - 1) = 2147483648 := by norm_num
    have e32 : (2 : Nat) ^ 32 - 1 = 4294967295 := by norm_num
    have e31i : (2 : Int) ^ (32 - 1) = 2147483648 := by norm_num
    rw [e31, e32, e31i]
    by_cases h1 : n ≤ 4294967295
    · simp only [if_pos h1]
      by_cases h2 : n ≤ 2147483648
      · rw [if_neg (by simp), if_neg (by simp), if_neg (by simp; omega), if_pos h2]
        simp only [if_true, Prod.mk.injEq, and_true]
        omega
      · rw [if_neg (by simp), if_neg (by simp), if_pos (by simp; omega), if_neg h2]
        rfl
    · simp only [if_neg h1]
      rw [if_neg (by simp), if_neg (by simp), if_pos (by simp), if_neg (by omega)]
      rfl
  · have e31 : (2 : Nat) ^ (64 - 1) = 9223372036854775808 := by norm_num
    have e32 : (2 : Nat) ^ 64 - 1 = 18446744073709551615 := by norm_num
    rw [e31, e32, e63]
    by_cases h1 : n ≤ 18446744073709551615
    · simp only [if_pos h1]
      by_cases h2 : n ≤ 9223372036854775808
      · rw [if_neg (by simp), if_neg (by simp), if_neg (by simp; omega), if_pos h2]
        simp only [if_true, Prod.mk.injEq, and_true]
        omega
      · rw [if_neg (by simp), if_neg (by simp), if_pos (by simp; omega), if_neg h2]
        rfl
    · simp only [if_neg h1]
      rw [if_neg (by simp), if_neg (by simp), if_pos (by simp), if_neg (by omega)]
      rfl

theorem fast_path_bound (arch : Arch) (ds : Bytes) (hd : ∀ c ∈ ds, isDigit c)
    (hlen : (arch.intSize = 32 ∧ ds.length < 10) ∨ (arch.intSize = 64 ∧ ds.length < 19)) :
    decVal ds 0 < 2 ^ (arch.intSize - 1) := by
  have h := decVal_lt ds hd 0
  rw [Nat.zero_add, Nat.one_mul] at h
  rcases hlen with ⟨ha, hl⟩ | ⟨ha, hl⟩
  · have hp : 10 ^ ds.length ≤ 10 ^ 9 := Nat.pow_le_pow_right (by norm_num) (by omega)
    rw [ha]
    norm_num at hp ⊢
    omega
  · have hp : 10 ^ ds.length ≤ 10 ^ 18 := Nat.pow_le_pow_right (by norm_num) (by omega)
    rw [ha]
    norm_num at hp ⊢
    omega

/-- What `strconv.Atoi` returns on a string of decimal digits. -/
theorem Atoi_digits (arch : Arch) (ds : Bytes) (hne : ds ≠ [])
    (hd : ∀ c ∈ ds, isDigit c) :
    Atoi arch ds =
      if decVal ds 0 < 2 ^ (arch.intSize - 1) then ((decVal ds 0 : Int), none)
      else ((2 ^ (arch.intSize - 1) : Int) - 1, some NumError.ErrRange) := by
  have hp := ParseInt_digits arch ds hne hd
  unfold Atoi
  simp only []
  split
  · rename_i hfast
    have hb : decVal ds 0 < 2 ^ (arch.intSize - 1) := by
      apply fast_path_bound arch ds hd
      rcases hfast with ⟨h1, _, h3⟩ | ⟨h1, _, h3⟩
      · exact Or.inl ⟨h1, h3⟩
      · exact Or.inr ⟨h1, h3⟩
    have hf := atoiFastLoop_digits arch ds hd 0 hb
    rw [Nat.cast_zero] at hf
    obtain ⟨c, rest, rfl⟩ := List.exists_cons_of_ne_nil hne
    have hc := digit_ne_sign c (hd c (List.mem_cons_self _ _))
    simp only [hc.1, hc.2, decide_False, Bool.or_self, Bool.false_eq_true, if_false,
      false_and, hf, if_pos hb]
  · rw [hp]
    split
    · rename_i hb
      simp only []
      rw [wrapInt_of_range arch _ (by
        have : (0 : Int) ≤ (decVal ds 0 : Int) := Int.natCast_nonneg _
        have : (0 : Int) < 2 ^ (arch.intSize - 1) := by positivity
        omega) (by exact_mod_cast hb)]
    · simp only []
      rw [wrapInt_of_range arch _ (by
        have : (0 : Int) < 2 ^ (arch.intSize - 1) := by positivity
        omega) (by omega)]

/-- What `strconv.Atoi` returns on `-` followed by decimal digits. -/
theorem Atoi_neg_digits (arch : Arch) (ds : Bytes) (hne : ds ≠ [])
    (hd : ∀ c ∈ ds, isDigit c) :
    Atoi arch (45 :: ds) =
      if decVal ds 0 ≤ 2 ^ (arch.intSize - 1) then (-(decVal ds 0 : Int), none)
      else (-(2 ^ (arch.intSize - 1) : Int), some NumError.ErrRange) := by
  have hp := ParseInt_neg_digits arch ds hne hd
  have hpos : (0 : Int) < 2 ^ (arch.intSize - 1) := by positivity
  have hnn : (0 : Int) ≤ (decVal ds 0 : Int) := Int.natCast_nonneg _
  unfold Atoi
  simp only []
  split
  · rename_i hfast
    have hb : decVal ds 0 < 2 ^ (arch.intSize - 1) := by
      apply fast_path_bound arch ds hd
      rw [List.length_cons] at hfast
      rcases hfast with ⟨h1, _, h3⟩ | ⟨h1, _, h3⟩
      · exact Or.inl ⟨h1, by omega⟩
      · exact Or.inr ⟨h1, by omega⟩
    have hf := atoiFastLoop_digits arch ds hd 0 hb
    rw [Nat.cast_zero] at hf
    have hl : ¬ ds.length < 1 := by
      have := List.length_pos.mpr hne
      omega
    have hbi : (decVal ds 0 : Int) < 2 ^ (arch.intSize - 1) := by exact_mod_cast hb
    simp only [decide_True, Bool.true_or, if_true, true_and, hl, if_false, hf,
      if_pos (Nat.le_of_lt hb)]
    rw [wrapInt_of_range arch _ (by omega) (by omega)]
  · rw [hp]
    split
    · rename_i hb
      have hbi : (decVal ds 0 : Int) ≤ 2 ^ (arch.intSize - 1) := by exact_mod_cast hb
      simp only []
      rw [wrapInt_of_range arch _ (by omega) (by omega)]
    · simp only []
      rw [wrapInt_of_range arch _ (by omega) (by omega)]

/-- Parsing a decimal rendering gives the integer back, clamped to the range of
`int`: `strconv.Atoi` saturates on overflow. -/
theorem Atoi_Itoa (arch : Arch) (v : Int) :
    (Atoi arch (Itoa v)).1 =
      max (-(2 ^ (arch.intSize - 1) : Int)) (min v ((2 ^ (arch.intSize - 1) : Int) - 1)) := by
  obtain ⟨ds, hne, hd, hval, hs⟩ := Itoa_spec v
  have hpos : (0 : Int) < 2 ^ (arch.intSize - 1) := by positivity
  rw [hs]
  by_cases hv : v < 0
  · rw [if_pos hv, Atoi_neg_digits arch ds hne hd, hval]
    have habs : (v.natAbs : Int) = -v := by omega
    split
    · rename_i hb
      have hbi : ((v.natAbs : Nat) : Int) ≤ 2 ^ (arch.intSize - 1) := by exact_mod_cast hb
      simp only []
      rw [habs] at hbi ⊢
      omega
    · rename_i hb
      have hbi : ¬ ((v.natAbs : Nat) : Int) ≤ 2 ^ (arch.intSize - 1) := by exact_mod_cast hb
      simp only []
      rw [habs] at hbi
      omega
  · rw [if_neg hv, Atoi_digits arch ds hne hd, hval]
    have habs : (v.natAbs : Int) = v := by omega
    split
    · rename_i hb
      have hbi : ((v.natAbs : Nat) : Int) < 2 ^ (arch.intSize - 1) := by exact_mod_cast hb
      simp only []
      rw [habs] at hbi ⊢
      omega
    · rename_i hb
      have hbi : ¬ ((v.natAbs : Nat) : Int) < 2 ^ (arch.intSize - 1) := by exact_mod_cast hb
      simp only []
      rw [habs] at hbi
      omega

theorem Itoa_ne_nil (v : Int) : Itoa v ≠ [] := by
  obtain ⟨ds, hne, _, _, hs⟩ := Itoa_spec v
  rw [hs]
  split
  · simp
  · exact hne

/-! ## The suspicious-UA signal (C4 to C6) -/

theorem ServeHTTP_err (arch : Arch) (w : ResponseWriter) (r : Request) (next : Handler) :
    (ServeHTTP arch w r next).err = (next (ServeHTTP arch w r next).r).2 := by
  unfold ServeHTTP forward
  simp only []
  split
  · split
    · split
      · rename_i e he
        exact he.symm
      · rename_i he
        exact he.symm
    · rfl
  · rfl

theorem ParseInt_syntax_zero (arch : Arch) (s : Bytes)
    (h : (ParseInt arch s).2 = some NumError.ErrSyntax) : (ParseInt arch s).1 = 0 := by
  unfold ParseInt at h ⊢
  split
  · rfl
  · simp only [] at h ⊢
    split_ifs at h ⊢ <;> simp_all

theorem ParseInt_range (arch : Arch) (s : Bytes)
    (h : (ParseInt arch s).2 = some NumError.ErrRange) :
    (ParseInt arch s).1 = (2 ^ (arch.intSize - 1) : Int) - 1 ∨
      (ParseInt arch s).1 = -(2 ^ (arch.intSize - 1) : Int) := by
  unfold ParseInt at h ⊢
  split
  · simp at h
  · simp only [] at h ⊢
    split_ifs at h ⊢ <;> simp_all

theorem wrapInt_zero (arch : Arch) : wrapInt arch.intSize 0 = 0 :=
  wrapInt_of_range arch 0 (by have : (0 : Int) < 2 ^ (arch.intSize - 1) := by positivity
                              omega) (by positivity)

/-- A syntax error of `strconv.Atoi` comes with the value zero. -/
theorem Atoi_syntax_zero (arch : Arch) (s : Bytes) :
    (Atoi arch s).2 = some NumError.ErrSyntax → (Atoi arch s).1 = 0 := by
  unfold Atoi
  simp only []
  split
  · split
    · intro _; rfl
    · rename_i c rest hfast
      generalize (if (decide (c = 45) || decide (c = 43)) = true then rest else c :: rest) = s1
      by_cases hc : (decide (c = 45) || decide (c = 43)) = true ∧ s1.length < 1
      · rw [if_pos hc]
        intro _
        rfl
      · rw [if_neg hc]
        cases atoiFastLoop arch s1 0 with
        | none => intro _; rfl
        | some n => intro h; simp at h
  · intro h
    simp only [] at h ⊢
    rw [ParseInt_syntax_zero arch s h]
    exact wrapInt_zero arch

/-- A range error of `strconv.Atoi` comes with the largest or the smallest `int`. -/
theorem Atoi_range (arch : Arch) (s : Bytes) :
    (Atoi arch s).2 = some NumError.ErrRange →
      (Atoi arch s).1 = (2 ^ (arch.intSize - 1) : Int) - 1 ∨
        (Atoi arch s).1 = -(2 ^ (arch.intSize - 1) : Int) := by
  have hpos : (0 : Int) < 2 ^ (arch.intSize - 1) := by positivity
  unfold Atoi
  simp only []
  split
  · split
    · intro h; simp at h
    · rename_i c rest hfast
      generalize (if (decide (c = 45) || decide (c = 43)) = true then rest else c :: rest) = s1
      by_cases hc : (decide (c = 45) || decide (c = 43)) = true ∧ s1.length < 1
      · rw [if_pos hc]
        intro h
        simp at h
      · rw [if_neg hc]
        cases atoiFastLoop arch s1 0 with
        | none => intro h; simp at h
        | some n => intro h; simp at h
  · intro h
    simp only [] at h ⊢
    rcases ParseInt_range arch s h with h1 | h1
    · left
      rw [h1, wrapInt_of_range arch _ (by omega) (by omega)]
    · right
      rw [h1, wrapInt_of_range arch _ (by omega) (by omega)]

theorem suspicious_eq (arch : Arch) (w : ResponseWriter) (r : Request) (next : Handler)
    (hm : classifiedMobile r = true) :
    (ServeHTTP arch w r next).r.Header (CanonicalMIMEHeaderKey (lit "X-DV-Suspicious-UA")) =
      some [if (Atoi arch (if r.Header.Get (lit "X-DV-Touch-Points") = [] then lit "-1"
            else r.Header.Get (lit "X-DV-Touch-Points"))).1 ≤ 1 then lit "true"
          else lit "false"] := by
  rw [ServeHTTP_r_mobile arch w r next hm, annotate_suspicious]

/-- C4: on a mobile request whose `X-DV-Touch-Points` value is the decimal rendering
of an integer `v`, of any magnitude and sign, `ServeHTTP` sets `X-DV-Suspicious-UA` to
`true` when `v <= 1` and to `false` when `v > 1`. -/
theorem suspicious_of_integer_touch_points (arch : Arch) (w : ResponseWriter) (r : Request)
    (next : Handler) (v : Int) (hm : classifiedMobile r = true)
    (htp : r.Header.Get (lit "X-DV-Touch-Points") = Itoa v) :
    (v ≤ 1 →
      (ServeHTTP arch w r next).r.Header (CanonicalMIMEHeaderKey (lit "X-DV-Suspicious-UA")) =
        some [lit "true"]) ∧
    (v > 1 →
      (ServeHTTP arch w r next).r.Header (CanonicalMIMEHeaderKey (lit "X-DV-Suspicious-UA")) =
        some [lit "false"]) := by
  have hpos : (2 : Int) < 2 ^ (arch.intSize - 1) := by
    cases arch <;> simp only [Arch.intSize] <;> norm_num
  rw [suspicious_eq arch w r next hm, htp, if_neg (Itoa_ne_nil v), Atoi_Itoa]
  generalize (2 : Int) ^ (arch.intSize - 1) = cutoff at hpos ⊢
  constructor
  · intro hv
    rw [if_pos (by rw [max_def, min_def]; split_ifs <;> omega)]
  · intro hv
    rw [if_neg (by rw [max_def, min_def]; split_ifs <;> omega)]

/-- C4 at a phone that reports 5 touch points, and at one that reports a number far
beyond the range of `int`. -/
theorem suspicious_of_integer_touch_points_witness :
    (classifiedMobile (phoneRequestWithTouchPoints (lit "5")) = true ∧
      (phoneRequestWithTouchPoints (lit "5")).Header.Get (lit "X-DV-Touch-Points") = Itoa 5 ∧
      (ServeHTTP Arch.w64 freshWriter (phoneRequestWithTouchPoints (lit "5")) pageHandler).r.Header
        (CanonicalMIMEHeaderKey (lit "X-DV-Suspicious-UA")) = some [lit "false"]) ∧
    (ServeHTTP Arch.w64 freshWriter
        (phoneRequestWithTouchPoints (lit "-100000000000000000000000")) pageHandler).r.Header
      (CanonicalMIMEHeaderKey (lit "X-DV-Suspicious-UA")) = some [lit "true"] :=
  have hm : classifiedMobile (phoneRequestWithTouchPoints (lit "5")) = true := by decide
  have h5 : (phoneRequestWithTouchPoints (lit "5")).Header.Get (lit "X-DV-Touch-Points") =
      Itoa 5 := by decide
  have hm2 : classifiedMobile (phoneRequestWithTouchPoints (lit "-100000000000000000000000")) =
      true := by decide
  have hbig : (phoneRequestWithTouchPoints (lit "-100000000000000000000000")).Header.Get
      (lit "X-DV-Touch-Points") = Itoa (-100000000000000000000000) := by decide!
  ⟨⟨hm, h5, (suspicious_of_integer_touch_points Arch.w64 freshWriter
      (phoneRequestWithTouchPoints (lit "5")) pageHandler 5 hm h5).2 (by decide)⟩,
    (suspicious_of_integer_touch_points Arch.w64 freshWriter
      (phoneRequestWithTouchPoints (lit "-100000000000000000000000")) pageHandler
      (-100000000000000000000000) hm2 hbig).1 (by decide)⟩

/-- C5 fails as stated: on a 64-bit platform the value `9223372036854775808` makes
`strconv.Atoi` report an error (out of range), yet the value used is the largest `int`,
not zero, and `X-DV-Suspicious-UA` is set to `false`. -/
theorem parse_failure_as_zero_counterexample :
    classifiedMobile (phoneRequestWithTouchPoints (lit "9223372036854775808")) = true ∧
    Atoi Arch.w64 (lit "9223372036854775808") =
      (9223372036854775807, some NumError.ErrRange) ∧
    (ServeHTTP Arch.w64 freshWriter (phoneRequestWithTouchPoints (lit "9223372036854775808"))
        pageHandler).r.Header (CanonicalMIMEHeaderKey (lit "X-DV-Suspicious-UA")) =
      some [lit "false"] ∧
    (ServeHTTP Arch.w64 freshWriter (phoneRequestWithTouchPoints (lit "9223372036854775808"))
        pageHandler).r.Header (CanonicalMIMEHeaderKey (lit "X-DV-Suspicious-UA")) ≠
      some [lit "true"] := by
  decide!

/-- C5, amended: on a mobile request whose effective `X-DV-Touch-Points` value makes
`strconv.Atoi` report a syntax error, the value is zero and `X-DV-Suspicious-UA` is
`true`; when `strconv.Atoi` reports a range error the value is the largest `int`, with
the header `false`, or the smallest `int`, with the header `true`. Either way
`ServeHTTP` returns the error of the next handler and none of its own. -/
theorem parse_failure_value_and_signal (arch : Arch) (w : ResponseWriter) (r : Request)
    (next : Handler) (tp : Bytes) (hm : classifiedMobile r = true)
    (htp : tp = if r.Header.Get (lit "X-DV-Touch-Points") = [] then lit "-1"
      else r.Header.Get (lit "X-DV-Touch-Points")) :
    ((Atoi arch tp).2 = some NumError.ErrSyntax →
      (Atoi arch tp).1 = 0 ∧
      (ServeHTTP arch w r next).r.Header (CanonicalMIMEHeaderKey (lit "X-DV-Suspicious-UA")) =
        some [lit "true"]) ∧
    ((Atoi arch tp).2 = some NumError.ErrRange →
      ((Atoi arch tp).1 = (2 ^ (arch.intSize - 1) : Int) - 1 ∧
        (ServeHTTP arch w r next).r.Header (CanonicalMIMEHeaderKey (lit "X-DV-Suspicious-UA")) =
          some [lit "false"]) ∨
      ((Atoi arch tp).1 = -(2 ^ (arch.intSize - 1) : Int) ∧
        (ServeHTTP arch w r next).r.Header (CanonicalMIMEHeaderKey (lit "X-DV-Suspicious-UA")) =
          some [lit "true"])) ∧
    (ServeHTTP arch w r next).err = (next (ServeHTTP arch w r next).r).2 := by
  have hpos : (2 : Int) < 2 ^ (arch.intSize - 1) := by
    cases arch <;> simp only [Arch.intSize] <;> norm_num
  rw [suspicious_eq arch w r next hm, ← htp]
  refine ⟨?_, ?_, ServeHTTP_err arch w r next⟩
  · intro h
    have h0 := Atoi_syntax_zero arch tp h
    rw [h0]
    exact ⟨rfl, rfl⟩
  · intro h
    rcases Atoi_range arch tp h with h1 | h1
    · left
      rw [h1, if_neg (by omega)]
      exact ⟨rfl, rfl⟩
    · right
      rw [h1, if_pos (by omega)]
      exact ⟨rfl, rfl⟩

/-- C5 amended, at a phone that sends `abc` as its touch-point count. -/
theorem parse_failure_value_and_signal_witness :
    classifiedMobile (phoneRequestWithTouchPoints (lit "abc")) = true ∧
    (Atoi Arch.w64 (lit "abc")).2 = some NumError.ErrSyntax ∧
    (Atoi Arch.w64 (lit "abc")).1 = 0 ∧
    (ServeHTTP Arch.w64 freshWriter (phoneRequestWithTouchPoints (lit "abc")) pageHandler).r.Header
      (CanonicalMIMEHeaderKey (lit "X-DV-Suspicious-UA")) = some [lit "true"] :=
  have hm : classifiedMobile (phoneRequestWithTouchPoints (lit "abc")) = true := by decide
  have he : (Atoi Arch.w64 (lit "abc")).2 = some NumError.ErrSyntax := by decide
  have h := (parse_failure_value_and_signal Arch.w64 freshWriter
    (phoneRequestWithTouchPoints (lit "abc")) pageHandler (lit "abc") hm (by decide)).1 he
  ⟨hm, he, h.1, h.2⟩

/-- C6: on a mobile request whose `X-DV-Touch-Points` header is absent, or bound to no
value, or has an empty first value, the request comes out with `X-DV-Touch-Points`
equal to `-1` and `X-DV-Suspicious-UA` equal to `true`. -/
theorem missing_touch_points_default (arch : Arch) (w : ResponseWriter) (r : Request)
    (next : Handler) (hm : classifiedMobile r = true)
    (habs : r.Header (CanonicalMIMEHeaderKey (lit "X-DV-Touch-Points")) = none ∨
      r.Header (CanonicalMIMEHeaderKey (lit "X-DV-Touch-Points")) = some [] ∨
      ∃ rest, r.Header (CanonicalMIMEHeaderKey (lit "X-DV-Touch-Points")) = some ([] :: rest)) :
    (ServeHTTP arch w r next).r.Header (CanonicalMIMEHeaderKey (lit "X-DV-Touch-Points")) =
      some [lit "-1"] ∧
    (ServeHTTP arch w r next).r.Header (CanonicalMIMEHeaderKey (lit "X-DV-Suspicious-UA")) =
      some [lit "true"] := by
  have hget : r.Header.Get (lit "X-DV-Touch-Points") = [] := by
    unfold Header.Get
    rcases habs with h | h | ⟨rest, h⟩ <;> rw [h]
  have hat : (Atoi arch (lit "-1")).1 ≤ 1 := by
    cases arch <;> decide
  rw [suspicious_eq arch w r next hm, ServeHTTP_r_mobile arch w r next hm, annotate_touchPoints,
    hget]
  rw [if_pos rfl, if_pos hat]
  exact ⟨rfl, rfl⟩

/-- C6 at a phone request that carries no `X-DV-Touch-Points` header. -/
theorem missing_touch_points_default_witness :
    classifiedMobile phoneRequest = true ∧
    phoneRequest.Header (CanonicalMIMEHeaderKey (lit "X-DV-Touch-Points")) = none ∧
    (ServeHTTP Arch.w64 freshWriter phoneRequest pageHandler).r.Header
      (CanonicalMIMEHeaderKey (lit "X-DV-Touch-Points")) = some [lit "-1"] ∧
    (ServeHTTP Arch.w64 freshWriter phoneRequest pageHandler).r.Header
      (CanonicalMIMEHeaderKey (lit "X-DV-Suspicious-UA")) = some [lit "true"] :=
  have hm : classifiedMobile phoneRequest = true := by decide
  have hn : phoneRequest.Header (CanonicalMIMEHeaderKey (lit "X-DV-Touch-Points")) = none := by
    decide
  have h := missing_touch_points_default Arch.w64 freshWriter phoneRequest pageHandler hm
    (Or.inl hn)
  ⟨hm, hn, h.1, h.2⟩

/-! ## Last occurrence and the injection (C7, C8) -/

theorem LastIndex_ge_neg_one (s sep : Bytes) : -1 ≤ LastIndex s sep := by
  induction s with
  | nil => unfold LastIndex; split <;> omega
  | cons c t ih =>
    unfold LastIndex
    simp only []
    split
    · omega
    · split <;> omega

theorem LastIndex_absent (s sep : Bytes) (h : ∀ j, ¬ sep <+: s.drop j) :
    LastIndex s sep = -1 := by
  induction s with
  | nil =>
    have h0 : sep ≠ [] := by
      intro he
      exact h 0 (by simp [he])
    simp [LastIndex, h0]
  | cons c t ih =>
    have ht : ∀ j, ¬ sep <+: t.drop j := fun j => by simpa using h (j + 1)
    have h0 : sep.isPrefixOf (c :: t) = false := by
      rw [Bool.eq_false_iff]
      intro hp
      exact h 0 (by simpa using List.isPrefixOf_iff_prefix.mp hp)
    unfold LastIndex
    simp [ih ht, h0]

/-- The function `LastIndex` returns the offset of the last occurrence. -/
theorem LastIndex_of_last (s sep : Bytes) : ∀ i : Nat, sep <+: s.drop i →
    (∀ j, i < j → ¬ sep <+: s.drop j) → LastIndex s sep = (i : Int) := by
  induction s with
  | nil =>
    intro i hocc hlast
    exfalso
    apply hlast (i + 1) (Nat.lt_succ_self i)
    simpa using hocc
  | cons c t ih =>
    intro i hocc hlast
    cases i with
    | zero =>
      have ht : ∀ j, ¬ sep <+: t.drop j := fun j => by simpa using hlast (j + 1) (Nat.succ_pos j)
      have h0 : sep.isPrefixOf (c :: t) = true :=
        List.isPrefixOf_iff_prefix.mpr (by simpa using hocc)
      unfold LastIndex
      simp [LastIndex_absent t sep ht, h0]
    | succ k =>
      have hk : LastIndex t sep = (k : Int) := by
        apply ih k (by simpa using hocc)
        intro j hj
        simpa using hlast (j + 1) (by omega)
      unfold LastIndex
      simp only [hk]
      rw [if_pos (by omega)]
      push_cast
      rfl

theorem not_occurs_of_absent (s sep : Bytes) (h : ¬ sep <:+: s) (j : Nat) :
    ¬ sep <+: s.drop j := fun hp =>
  h (List.IsPrefix.isInfix hp |>.trans (List.drop_suffix j s).isInfix)

theorem inject_of_last (content : Bytes) (i : Nat) (hocc : bodyTag <+: content.drop i)
    (hlast : ∀ j, i < j → ¬ bodyTag <+: content.drop j) :
    injectTouchPointsJS content = content.take i ++ script ++ content.drop (i + 7) := by
  unfold injectTouchPointsJS
  simp only [LastIndex_of_last content bodyTag i hocc hlast]
  rw [if_pos (by omega)]
  rfl

theorem inject_of_absent (content : Bytes) (h : ¬ bodyTag <:+: content) :
    injectTouchPointsJS content = content ++ script := by
  unfold injectTouchPointsJS
  simp only [LastIndex_absent content bodyTag (not_occurs_of_absent content bodyTag h)]
  rfl

theorem bodyTag_length : bodyTag.length = 7 := by decide

theorem occurs_length (s sep : Bytes) (j : Nat) (h : sep <+: s.drop j) (hne : sep ≠ []) :
    j + sep.length ≤ s.length := by
  have h1 := h.length_le
  rw [List.length_drop] at h1
  have h2 : 0 < sep.length := List.length_pos.mpr hne
  omega

/-- C7: when `</body>` occurs in the content and `i` is the offset of its last
occurrence, `injectTouchPointsJS` returns the bytes before offset `i`, then the payload,
then the bytes from offset `i + 7` on. So the first `i` bytes are kept, the bytes after
the payload are those that followed the closing tag, and an occurrence of `</body>`
that ends before offset `i` stays where it was. -/
theorem inject_replaces_last_closing_tag (content : Bytes) (i : Nat)
    (hocc : bodyTag <+: content.drop i)
    (hlast : ∀ j, i < j → ¬ bodyTag <+: content.drop j) :
    injectTouchPointsJS content = content.take i ++ script ++ content.drop (i + 7) ∧
    (injectTouchPointsJS content).take i = content.take i ∧
    (injectTouchPointsJS content).drop (i + script.length) = content.drop (i + 7) ∧
    (∀ j, j + 7 ≤ i → bodyTag <+: content.drop j →
      bodyTag <+: (injectTouchPointsJS content).drop j) := by
  have hlen := occurs_length content bodyTag i hocc (by decide)
  rw [bodyTag_length] at hlen
  have htake : (content.take i).length = i := by
    rw [List.length_take]
    omega
  rw [inject_of_last content i hocc hlast]
  refine ⟨rfl, ?_, ?_, ?_⟩
  · rw [List.append_assoc, List.take_left' htake]
  · apply List.drop_left'
    rw [List.length_append, htake]
  · intro j hj hp
    have hsplit : content.drop j = (content.take i).drop j ++ content.drop i := by
      conv_lhs => rw [← List.take_append_drop i content]
      rw [List.drop_append_of_le_length (by omega)]
    rw [List.append_assoc, List.drop_append_of_le_length (by omega)]
    rw [hsplit] at hp
    have hshort : bodyTag <+: (content.take i).drop j := by
      apply List.prefix_of_prefix_length_le hp (List.prefix_append _ _)
      rw [bodyTag_length, List.length_drop, htake]
      omega
    exact hshort.trans (List.prefix_append _ _)

theorem LastIndex_neg_one (s sep : Bytes) (h : LastIndex s sep = -1) :
    ∀ j, ¬ sep <+: s.drop j := by
  induction s with
  | nil =>
    intro j hp
    have hs : sep = [] := by simpa using hp
    simp [LastIndex, hs] at h
  | cons c t ih =>
    have hge := LastIndex_ge_neg_one t sep
    unfold LastIndex at h
    simp only [] at h
    by_cases hr : LastIndex t sep = -1
    · rw [if_neg (by simp [hr])] at h
      have h0 : ¬ sep.isPrefixOf (c :: t) = true := by
        intro hp
        rw [if_pos hp] at h
        omega
      intro j
      cases j with
      | zero =>
        intro hp
        exact h0 (List.isPrefixOf_iff_prefix.mpr (by simpa using hp))
      | succ k => simpa using ih hr k
    · rw [if_pos hr] at h
      omega

/-- What a non-negative result of `LastIndex` means: `sep` occurs at that offset and at
no later one. -/
theorem LastIndex_spec (s sep : Bytes) (hne : sep ≠ []) : ∀ i : Nat,
    LastIndex s sep = (i : Int) →
      sep <+: s.drop i ∧ ∀ j, i < j → ¬ sep <+: s.drop j := by
  induction s with
  | nil =>
    intro i h
    simp [LastIndex, hne] at h
  | cons c t ih =>
    intro i h
    have hge := LastIndex_ge_neg_one t sep
    unfold LastIndex at h
    simp only [] at h
    by_cases hr : LastIndex t sep = -1
    · rw [if_neg (by simp [hr])] at h
      by_cases hp : sep.isPrefixOf (c :: t) = true
      · rw [if_pos hp] at h
        have hi : i = 0 := by omega
        subst hi
        refine ⟨by simpa using List.isPrefixOf_iff_prefix.mp hp, ?_⟩
        intro j hj
        obtain ⟨k, rfl⟩ : ∃ k, j = k + 1 := ⟨j - 1, by omega⟩
        simpa using LastIndex_neg_one t sep hr k
      · rw [if_neg hp] at h
        omega
    · rw [if_pos hr] at h
      obtain ⟨k, rfl⟩ : ∃ k, i = k + 1 := ⟨i - 1, by omega⟩
      have hk : LastIndex t sep = (k : Int) := by
        push_cast at h
        omega
      obtain ⟨h1, h2⟩ := ih k hk
      refine ⟨by simpa using h1, ?_⟩
      intro j hj
      obtain ⟨m, rfl⟩ : ∃ m, j = m + 1 := ⟨j - 1, by omega⟩
      simpa using h2 m (by omega)

/-- What a non-negative result of `Index` means: `substr` occurs at that offset and at
no earlier one. -/
theorem Index_spec (s substr : Bytes) : ∀ i : Nat, Index s substr = (i : Int) →
    substr <+: s.drop i ∧ ∀ j, j < i → ¬ substr <+: s.drop j := by
  induction s with
  | nil =>
    intro i h
    unfold Index at h
    split at h
    · rename_i he
      have hi : i = 0 := by omega
      subst hi
      exact ⟨by simp [he], fun j hj => by omega⟩
    · omega
  | cons c t ih =>
    intro i h
    have hge := Index_ge_neg_one t substr
    unfold Index at h
    by_cases hp : substr.isPrefixOf (c :: t) = true
    · rw [if_pos hp] at h
      have hi : i = 0 := by omega
      subst hi
      exact ⟨by simpa using List.isPrefixOf_iff_prefix.mp hp, fun j hj => by omega⟩
    · rw [if_neg hp] at h
      simp only [] at h
      by_cases hr : Index t substr = -1
      · rw [if_pos hr] at h
        omega
      · rw [if_neg hr] at h
        obtain ⟨k, rfl⟩ : ∃ k, i = k + 1 := ⟨i - 1, by omega⟩
        have hk : Index t substr = (k : Int) := by
          push_cast at h
          omega
        obtain ⟨h1, h2⟩ := ih k hk
        refine ⟨by simpa using h1, ?_⟩
        intro j hj
        cases j with
        | zero =>
          intro hp0
          exact hp (List.isPrefixOf_iff_prefix.mpr (by simpa using hp0))
        | succ m => simpa using h2 m (by omega)

/-- C7 on a page with two closing tags: the one at offset 21 is the last, the payload
takes its place and the one at offset 13 stays. -/
theorem inject_replaces_last_closing_tag_witness :
    (bodyTag <+: (lit "<html><body>a</body>b</body></html>").drop 21 ∧
      ∀ j, 21 < j → ¬ bodyTag <+: (lit "<html><body>a</body>b</body></html>").drop j) ∧
    injectTouchPointsJS (lit "<html><body>a</body>b</body></html>") =
      (lit "<html><body>a</body>b</body></html>").take 21 ++ script ++
        (lit "<html><body>a</body>b</body></html>").drop (21 + 7) ∧
    (lit "<html><body>a</body>b</body></html>").take 21 = lit "<html><body>a</body>b" ∧
    (lit "<html><body>a</body>b</body></html>").drop (21 + 7) = lit "</html>" :=
  have h := LastIndex_spec (lit "<html><body>a</body>b</body></html>") bodyTag (by decide) 21
    (by decide)
  ⟨h, (inject_replaces_last_closing_tag (lit "<html><body>a</body>b</body></html>") 21
    h.1 h.2).1, by decide, by decide⟩

/-- C8: when the content does not contain the seven bytes `</body>`, as with the empty
content or a page that closes with `</BODY>`, `injectTouchPointsJS` returns the content
followed by the payload. -/
theorem inject_appends_without_closing_tag (content : Bytes)
    (h : ¬ bodyTag <:+: content) :
    injectTouchPointsJS content = content ++ script ∧
    injectTouchPointsJS [] = [] ++ script ∧
    injectTouchPointsJS (lit "<html><body>hi</BODY></html>") =
      lit "<html><body>hi</BODY></html>" ++ script :=
  ⟨inject_of_absent content h,
    inject_of_absent [] (by rw [← Contains_iff]; decide),
    inject_of_absent _ (by rw [← Contains_iff]; decide)⟩

/-- C8 on the page `<html><body>hi`, which has no closing tag. -/
theorem inject_appends_without_closing_tag_witness :
    ¬ bodyTag <:+: lit "<html><body>hi" ∧
    injectTouchPointsJS (lit "<html><body>hi") = lit "<html><body>hi" ++ script :=
  have h : ¬ bodyTag <:+: lit "<html><body>hi" := by
    rw [← Contains_iff]
    decide
  ⟨h, (inject_appends_without_closing_tag (lit "<html><body>hi") h).1⟩

/-! ## Occurrences of the closing tag around the payload (C9) -/

theorem occurs_getElem (l sep : Bytes) (j : Nat) (h : sep <+: l.drop j) (k : Nat)
    (hk : k < sep.length) : l[j + k]? = sep[k]? := by
  obtain ⟨t, ht⟩ := h
  rw [← List.getElem?_drop, ← ht, List.getElem?_append_left hk]

theorem occurs_append_left (a b sep : Bytes) (j : Nat) (h : j + sep.length ≤ a.length) :
    sep <+: (a ++ b).drop j ↔ sep <+: a.drop j := by
  rw [List.drop_append_of_le_length (by omega)]
  constructor
  · intro hp
    apply List.prefix_of_prefix_length_le hp (List.prefix_append _ _)
    rw [List.length_drop]
    omega
  · intro hp
    exact hp.trans (List.prefix_append _ _)

theorem drop_append_right (a b : Bytes) (j : Nat) (h : a.length ≤ j) :
    (a ++ b).drop j = b.drop (j - a.length) := by
  obtain ⟨m, rfl⟩ : ∃ m, j = a.length + m := ⟨j - a.length, by omega⟩
  rw [List.drop_append, Nat.add_sub_cancel_left]

/-- Where `</body>` can occur in `pre ++ M ++ post` when the middle part `M` ends with
the tag, holds it nowhere else, and starts with a byte the tag does not continue
with: inside `pre`, at the end of `M`, or inside `post`. -/
theorem occurs_around (M : Bytes) (hlen : 7 ≤ M.length)
    (P1 : ∀ k, 0 < k → k < 7 → M[0]? ≠ bodyTag[k]?)
    (P2 : ∀ m, m + 7 ≤ M.length → (bodyTag <+: M.drop m ↔ m + 7 = M.length))
    (P3 : ∀ m, M.length < m + 7 → m < M.length → M[m]? ≠ some 60)
    (pre post : Bytes) (j : Nat) :
    bodyTag <+: (pre ++ M ++ post).drop j ↔
      (j + 7 ≤ pre.length ∧ bodyTag <+: pre.drop j) ∨ j + 7 = pre.length + M.length ∨
      (pre.length + M.length ≤ j ∧
        bodyTag <+: post.drop (j - (pre.length + M.length))) := by
  have hT : bodyTag.length = 7 := bodyTag_length
  by_cases hA : j + 7 ≤ pre.length
  · rw [List.append_assoc, occurs_append_left pre (M ++ post) bodyTag j (by omega)]
    constructor
    · intro h
      exact Or.inl ⟨hA, h⟩
    · rintro (⟨_, h⟩ | h | ⟨h, _⟩)
      · exact h
      · omega
      · omega
  · by_cases hB : j < pre.length
    · constructor
      · intro h
        exfalso
        have hk := occurs_getElem _ _ j h (pre.length - j) (by omega)
        have hidx : j + (pre.length - j) = pre.length := by omega
        rw [hidx, List.append_assoc, List.getElem?_append_right (Nat.le_refl _),
          Nat.sub_self, List.getElem?_append_left (by omega)] at hk
        exact P1 (pre.length - j) (by omega) (by omega) hk
      · rintro (⟨h, _⟩ | h | ⟨h, _⟩) <;> omega
    · have hdrop : (pre ++ M ++ post).drop j = (M ++ post).drop (j - pre.length) := by
        rw [List.append_assoc, drop_append_right pre (M ++ post) j (by omega)]
      rw [hdrop]
      by_cases hC1 : j - pre.length + 7 ≤ M.length
      · rw [occurs_append_left M post bodyTag (j - pre.length) (by omega),
          P2 (j - pre.length) hC1]
        constructor
        · intro h
          exact Or.inr (Or.inl (by omega))
        · rintro (⟨h, _⟩ | h | ⟨h, _⟩) <;> omega
      · by_cases hC2 : j - pre.length < M.length
        · constructor
          · intro h
            exfalso
            have hk := occurs_getElem _ _ (j - pre.length) h 0 (by omega)
            rw [Nat.add_zero, List.getElem?_append_left hC2] at hk
            exact P3 (j - pre.length) (by omega) hC2 (by rw [hk]; decide)
          · rintro (⟨h, _⟩ | h | ⟨h, _⟩) <;> omega
        · rw [drop_append_right M post (j - pre.length) (by omega)]
          have hidx : j - pre.length - M.length = j - (pre.length + M.length) := by omega
          rw [hidx]
          constructor
          · intro h
            exact Or.inr (Or.inr ⟨by omega, h⟩)
          · rintro (⟨h, _⟩ | h | ⟨_, h⟩)
            · omega
            · omega
            · exact h

set_option maxRecDepth 100000 in
theorem script_length : script.length = 934 := by decide!

set_option maxRecDepth 100000 in
theorem script_Index : Index script bodyTag = ((927 : Nat) : Int) := by decide!

set_option maxRecDepth 100000 in
theorem script_LastIndex : LastIndex script bodyTag = ((927 : Nat) : Int) := by decide!

set_option maxRecDepth 100000 in
theorem script_head : script[0]? = some 10 := by decide!

set_option maxRecDepth 100000 in
theorem script_tail_no_open : ∀ k, k < 6 → script[928 + k]? ≠ some 60 := by decide!

/-- The payload holds `</body>` at offset 927, its last seven bytes, and nowhere else. -/
theorem script_occurs_iff (m : Nat) : bodyTag <+: script.drop m ↔ m = 927 := by
  have h1 := Index_spec script bodyTag 927 script_Index
  have h2 := LastIndex_spec script bodyTag (by decide) 927 script_LastIndex
  constructor
  · intro h
    by_contra hne
    rcases Nat.lt_or_gt_of_ne hne with hlt | hgt
    · exact h1.2 m hlt h
    · exact h2.2 m hgt h
  · intro h
    rw [h]
    exact h1.1

theorem occurs_around_script (pre post : Bytes) (j : Nat) :
    bodyTag <+: (pre ++ script ++ post).drop j ↔
      (j + 7 ≤ pre.length ∧ bodyTag <+: pre.drop j) ∨ j + 7 = pre.length + script.length ∨
      (pre.length + script.length ≤ j ∧
        bodyTag <+: post.drop (j - (pre.length + script.length))) := by
  apply occurs_around script
  · rw [script_length]
    omega
  · intro k h0 h7
    rw [script_head]
    interval_cases k <;> decide
  · intro m _
    rw [script_occurs_iff, script_length]
    omega
  · intro m h1 h2
    rw [script_length] at h1 h2
    obtain ⟨k, rfl⟩ : ∃ k, m = 928 + k := ⟨m - 928, by omega⟩
    exact script_tail_no_open k (by omega)

theorem occurs_around_bodyTag (pre post : Bytes) (j : Nat) :
    bodyTag <+: (pre ++ bodyTag ++ post).drop j ↔
      (j + 7 ≤ pre.length ∧ bodyTag <+: pre.drop j) ∨ j + 7 = pre.length + bodyTag.length ∨
      (pre.length + bodyTag.length ≤ j ∧
        bodyTag <+: post.drop (j - (pre.length + bodyTag.length))) := by
  apply occurs_around bodyTag
  · rw [bodyTag_length]
  · intro k h0 h7
    interval_cases k <;> decide
  · intro m hm
    rw [bodyTag_length] at hm ⊢
    have h0 : m = 0 := by omega
    subst h0
    simp
  · intro m h1 h2
    rw [bodyTag_length] at h1 h2
    have h0 : 0 < m := by omega
    interval_cases m <;> decide

theorem occurrences_eq_one (s sep : Bytes) (hne : sep ≠ []) (h : occurrences sep s = 1) :
    ∃ i, sep <+: s.drop i ∧ ∀ j, sep <+: s.drop j → j = i := by
  unfold occurrences at h
  rw [List.countP_eq_length_filter, List.length_eq_one] at h
  obtain ⟨a, ha⟩ := h
  have hmem : ∀ j, j ∈ List.filter (fun i => sep.isPrefixOf (s.drop i))
      (List.range (s.length + 1)) ↔ sep <+: s.drop j := by
    intro j
    rw [List.mem_filter, List.mem_range, List.isPrefixOf_iff_prefix]
    constructor
    · exact fun h => h.2
    · intro hp
      have := occurs_length s sep j hp hne
      exact ⟨by omega, hp⟩
  refine ⟨a, (hmem a).mp (by rw [ha]; exact List.mem_singleton_self a), ?_⟩
  intro j hj
  have := (hmem j).mpr hj
  rw [ha, List.mem_singleton] at this
  exact this

theorem occurrences_of_unique (s sep : Bytes) (hne : sep ≠ []) (a : Nat)
    (h : ∀ j, sep <+: s.drop j ↔ j = a) : occurrences sep s = 1 := by
  have ha : a ∈ List.range (s.length + 1) := by
    have := occurs_length s sep a ((h a).mpr rfl) hne
    rw [List.mem_range]
    omega
  unfold occurrences
  have hcongr : List.countP (fun i => sep.isPrefixOf (s.drop i)) (List.range (s.length + 1)) =
      List.countP (fun i => i == a) (List.range (s.length + 1)) := by
    apply List.countP_congr
    intro x _
    rw [List.isPrefixOf_iff_prefix, h x]
    simp
  rw [hcongr]
  exact List.count_eq_one_of_mem (List.nodup_range _) ha

theorem split_at_occurrence (s sep : Bytes) (i : Nat) (h : sep <+: s.drop i) :
    s = s.take i ++ sep ++ s.drop (i + sep.length) := by
  obtain ⟨t, ht⟩ := h
  have hd : s.drop (i + sep.length) = t := by
    rw [← List.drop_drop, ← ht, List.drop_left]
  rw [hd, List.append_assoc, ht, List.take_append_drop]

/-- Where `</body>` occurs in the output for a body that holds it exactly once, at
offset `i`: only at offset `i + 927`, the last seven bytes of the payload. -/
theorem inject_single_occurs (body : Bytes) (i : Nat) (hocc : bodyTag <+: body.drop i)
    (huniq : ∀ j, bodyTag <+: body.drop j → j = i) (j : Nat) :
    bodyTag <+: (injectTouchPointsJS body).drop j ↔ j = i + (script.length - 7) := by
  have hlast : ∀ j, i < j → ¬ bodyTag <+: body.drop j := fun j hj hp => by
    have := huniq j hp
    omega
  have hlen := occurs_length body bodyTag i hocc (by decide)
  have hpre : (body.take i).length = i := by
    rw [List.length_take]
    omega
  have hbody := split_at_occurrence body bodyTag i hocc
  have hin : ∀ j, bodyTag <+: (body.take i ++ bodyTag ++ body.drop (i + bodyTag.length)).drop j →
      j = i := by
    intro j hj
    rw [← hbody] at hj
    exact huniq j hj
  rw [inject_of_last body i hocc hlast, occurs_around_script, hpre, script_length]
  rw [bodyTag_length] at hin hlen
  constructor
  · rintro (⟨h1, h2⟩ | h | ⟨h1, h2⟩)
    · have := hin j ((occurs_around_bodyTag _ _ j).mpr (Or.inl ⟨by omega, h2⟩))
      omega
    · omega
    · have := hin (j - 927) ((occurs_around_bodyTag _ _ (j - 927)).mpr (Or.inr (Or.inr
        ⟨by rw [hpre, bodyTag_length]; omega, by
          rw [hpre, bodyTag_length]
          have e : j - 927 - (i + 7) = j - (i + 934) := by omega
          rw [e]
          exact h2⟩)))
      omega
  · intro h
    exact Or.inr (Or.inl (by omega))

/-- C9: when the body holds `</body>` exactly once, the output of `injectTouchPointsJS`
holds `</body>` exactly once, at the last seven bytes of the inserted payload, and does
not contain `</body></body>`. -/
theorem inject_keeps_single_closing_tag (body : Bytes) (h : occurrences bodyTag body = 1) :
    occurrences bodyTag (injectTouchPointsJS body) = 1 ∧
    (∃ i, bodyTag <+: body.drop i ∧
      injectTouchPointsJS body = body.take i ++ script ++ body.drop (i + 7) ∧
      ∀ j, bodyTag <+: (injectTouchPointsJS body).drop j ↔ j = i + (script.length - 7)) ∧
    ¬ (bodyTag ++ bodyTag) <:+: injectTouchPointsJS body := by
  obtain ⟨i, hocc, huniq⟩ := occurrences_eq_one body bodyTag (by decide) h
  have hout := inject_single_occurs body i hocc huniq
  have hlast : ∀ j, i < j → ¬ bodyTag <+: body.drop j := fun j hj hp => by
    have := huniq j hp
    omega
  refine ⟨occurrences_of_unique _ bodyTag (by decide) _ hout,
    ⟨i, hocc, inject_of_last body i hocc hlast, hout⟩, ?_⟩
  rintro ⟨s, t, hst⟩
  have h1 : bodyTag <+: (injectTouchPointsJS body).drop s.length := by
    rw [← hst, List.append_assoc, List.append_assoc, List.drop_left]
    exact List.prefix_append _ _
  have h2 : bodyTag <+: (injectTouchPointsJS body).drop (s.length + 7) := by
    have e : s ++ (bodyTag ++ bodyTag) ++ t = (s ++ bodyTag) ++ (bodyTag ++ t) := by
      simp only [List.append_assoc]
    have hl : (s ++ bodyTag).length = s.length + 7 := by
      rw [List.length_append, bodyTag_length]
    rw [← hst, e, ← hl, List.drop_left]
    exact List.prefix_append _ _
  have e1 := (hout _).mp h1
  have e2 := (hout _).mp h2
  omega

set_option maxRecDepth 100000 in
/-- C9 on the page `<html><body>hi</body></html>`. -/
theorem inject_keeps_single_closing_tag_witness :
    occurrences bodyTag (lit "<html><body>hi</body></html>") = 1 ∧
    occurrences bodyTag (injectTouchPointsJS (lit "<html><body>hi</body></html>")) = 1 ∧
    ¬ (bodyTag ++ bodyTag) <:+: injectTouchPointsJS (lit "<html><body>hi</body></html>") :=
  have h : occurrences bodyTag (lit "<html><body>hi</body></html>") = 1 := by decide
  have hc := inject_keeps_single_closing_tag (lit "<html><body>hi</body></html>") h
  ⟨h, hc.1, hc.2.2⟩

/-! ## Capture and rewrite (C10) -/

theorem HasSuffix_iff (s suffix : Bytes) : HasSuffix s suffix = true ↔ suffix <:+ s := by
  unfold HasSuffix
  rw [Bool.and_eq_true, decide_eq_true_iff, decide_eq_true_iff, List.suffix_iff_eq_drop]
  constructor
  · intro h
    exact h.2.symm
  · intro h
    refine ⟨?_, h.symm⟩
    have := congrArg List.length h
    rw [List.length_drop] at this
    omega

theorem capture_fold (ops : List WriterOp) : ∀ c : captureResponseWriter,
    (ops.foldl captureResponseWriter.apply c).buf = c.buf ++ writtenBytes ops ∧
    (ops.foldl captureResponseWriter.apply c).ResponseWriter.writes =
      c.ResponseWriter.writes := by
  induction ops with
  | nil =>
    intro c
    simp [writtenBytes]
  | cons op rest ih =>
    intro c
    rw [List.foldl_cons]
    obtain ⟨h1, h2⟩ := ih (c.apply op)
    rw [h1, h2]
    cases op with
    | mutateHeader f => exact ⟨rfl, rfl⟩
    | WriteHeader code => exact ⟨rfl, rfl⟩
    | Write p =>
      simp only [captureResponseWriter.apply, captureResponseWriter.Write, writtenBytes,
        List.append_assoc, and_self]

/-- C10: on a request classified mobile whose path ends in `.html` or `/`, when the
next handler returns no error, `ServeHTTP` hands it the capturing writer, then makes
exactly one `Write` on the real writer, with `injectTouchPointsJS` of the bytes the
handler wrote, concatenated in order; it sets the real `Content-Length` to the decimal
rendering of the length of those bytes, whatever the handler had put there, and returns
no error. -/
theorem capture_mode_rewrites_response (arch : Arch) (w : ResponseWriter) (r : Request)
    (next : Handler) (hm : classifiedMobile r = true)
    (hpath : lit ".html" <:+ r.Path ∨ lit "/" <:+ r.Path)
    (hok : (next (ServeHTTP arch w r next).r).2 = none) :
    (ServeHTTP arch w r next).calls = [(Sink.capture, (ServeHTTP arch w r next).r)] ∧
    (ServeHTTP arch w r next).w.writes =
      w.writes ++ [injectTouchPointsJS (writtenBytes (next (ServeHTTP arch w r next).r).1)] ∧
    (ServeHTTP arch w r next).w.header (CanonicalMIMEHeaderKey (lit "Content-Length")) =
      some [Itoa ((injectTouchPointsJS
        (writtenBytes (next (ServeHTTP arch w r next).r).1)).length : Int)] ∧
    (ServeHTTP arch w r next).err = none := by
  have hr := ServeHTTP_r arch w r next
  rw [if_pos hm] at hr
  rw [hr] at hok ⊢
  have hsuf : (HasSuffix r.Path (lit ".html") || HasSuffix r.Path (lit "/")) = true := by
    rw [Bool.or_eq_true, HasSuffix_iff, HasSuffix_iff]
    exact hpath
  unfold classifiedMobile at hm
  unfold ServeHTTP
  simp only [hm, if_true, hsuf, hok]
  obtain ⟨h1, h2⟩ := capture_fold
    (next { r with Header := annotate arch (r.Header.Get (lit "User-Agent")) r.Header }).1
    { ResponseWriter := w, buf := [] }
  simp only [ResponseWriter.apply, h1, h2, List.nil_append, Header.Set_same, and_self]

set_option maxRecDepth 100000 in
/-- C10 at a phone asking for `/index.html`, with a next handler that sets
`Content-Length: 28` and writes the page in two pieces: the real writer gets one write
of 955 bytes and `Content-Length: 955`. -/
theorem capture_mode_rewrites_response_witness :
    (classifiedMobile phoneRequest = true ∧ lit ".html" <:+ phoneRequest.Path ∧
      (chunkedHandler (ServeHTTP Arch.w64 freshWriter phoneRequest chunkedHandler).r).2 = none) ∧
    (ServeHTTP Arch.w64 freshWriter phoneRequest chunkedHandler).w.writes =
      freshWriter.writes ++ [injectTouchPointsJS (writtenBytes
        (chunkedHandler (ServeHTTP Arch.w64 freshWriter phoneRequest chunkedHandler).r).1)] ∧
    (ServeHTTP Arch.w64 freshWriter phoneRequest chunkedHandler).w.header
        (CanonicalMIMEHeaderKey (lit "Content-Length")) =
      some [Itoa ((injectTouchPointsJS (writtenBytes
        (chunkedHandler (ServeHTTP Arch.w64 freshWriter phoneRequest chunkedHandler).r).1)).length
          : Int)] ∧
    Itoa ((injectTouchPointsJS (writtenBytes
      (chunkedHandler (ServeHTTP Arch.w64 freshWriter phoneRequest chunkedHandler).r).1)).length
        : Int) = lit "955" ∧
    (ServeHTTP Arch.w64 freshWriter phoneRequest chunkedHandler).err = none :=
  have hm : classifiedMobile phoneRequest = true := by decide
  have hp : lit ".html" <:+ phoneRequest.Path := by
    rw [← HasSuffix_iff]
    decide
  have hok : (chunkedHandler
      (ServeHTTP Arch.w64 freshWriter phoneRequest chunkedHandler).r).2 = none := rfl
  have h := capture_mode_rewrites_response Arch.w64 freshWriter phoneRequest chunkedHandler hm
    (Or.inl hp) hok
  ⟨⟨hm, hp, hok⟩, h.2.1, h.2.2.1, by decide!, h.2.2.2⟩

/-! ## Path gating, failure and frame of the capture (C11, C12, C17, C18) -/

theorem capture_fold_writer (ops : List WriterOp) : ∀ c : captureResponseWriter,
    (ops.foldl captureResponseWriter.apply c).ResponseWriter =
      (nonWrites ops).foldl ResponseWriter.apply c.ResponseWriter := by
  induction ops with
  | nil => intro c; rfl
  | cons op rest ih =>
    intro c
    rw [List.foldl_cons, ih]
    cases op <;> rfl

theorem real_fold_writes (ops : List WriterOp) : ∀ w : ResponseWriter,
    (ops.foldl ResponseWriter.apply w).writes = w.writes ++ writeCalls ops := by
  induction ops with
  | nil => intro w; simp [writeCalls]
  | cons op rest ih =>
    intro w
    rw [List.foldl_cons, ih]
    cases op <;> simp [ResponseWriter.apply, writeCalls]

theorem real_fold_header (ops : List WriterOp) : ∀ w : ResponseWriter,
    (ops.foldl ResponseWriter.apply w).header = headerAfter ops w.header := by
  induction ops with
  | nil => intro w; rfl
  | cons op rest ih =>
    intro w
    rw [List.foldl_cons, ih]
    cases op <;> rfl

theorem nonWrites_fold_writes (ops : List WriterOp) : ∀ w : ResponseWriter,
    ((nonWrites ops).foldl ResponseWriter.apply w).writes = w.writes := by
  induction ops with
  | nil => intro w; rfl
  | cons op rest ih =>
    intro w
    cases op with
    | Write p => exact ih w
    | mutateHeader f =>
      show (List.foldl ResponseWriter.apply _ (nonWrites rest)).writes = _
      rw [ih]
      rfl
    | WriteHeader code =>
      show (List.foldl ResponseWriter.apply _ (nonWrites rest)).writes = _
      rw [ih]
      rfl

theorem nonWrites_fold_header (ops : List WriterOp) : ∀ w : ResponseWriter,
    ((nonWrites ops).foldl ResponseWriter.apply w).header = headerAfter ops w.header := by
  induction ops with
  | nil => intro w; rfl
  | cons op rest ih =>
    intro w
    cases op with
    | Write p => exact ih w
    | mutateHeader f =>
      show (List.foldl ResponseWriter.apply _ (nonWrites rest)).header = _
      rw [ih]
      rfl
    | WriteHeader code =>
      show (List.foldl ResponseWriter.apply _ (nonWrites rest)).header = _
      rw [ih]
      rfl

theorem ServeHTTP_mobile_passthrough (arch : Arch) (w : ResponseWriter) (r : Request)
    (next : Handler) (hm : classifiedMobile r = true)
    (hpath : ¬ (lit ".html" <:+ r.Path ∨ lit "/" <:+ r.Path)) :
    ServeHTTP arch w r next =
      forward w { r with Header := annotate arch (r.Header.Get (lit "User-Agent")) r.Header }
        next := by
  have hsuf : (HasSuffix r.Path (lit ".html") || HasSuffix r.Path (lit "/")) = false := by
    rw [Bool.eq_false_iff]
    intro h
    rw [Bool.or_eq_true, HasSuffix_iff, HasSuffix_iff] at h
    exact hpath h
  unfold classifiedMobile at hm
  unfold ServeHTTP
  simp only [hm, if_true, hsuf, Bool.false_eq_true, if_false]

theorem ServeHTTP_capture_calls (arch : Arch) (w : ResponseWriter) (r : Request)
    (next : Handler) (hm : classifiedMobile r = true)
    (hpath : lit ".html" <:+ r.Path ∨ lit "/" <:+ r.Path) :
    (ServeHTTP arch w r next).calls = [(Sink.capture, (ServeHTTP arch w r next).r)] := by
  have hsuf : (HasSuffix r.Path (lit ".html") || HasSuffix r.Path (lit "/")) = true := by
    rw [Bool.or_eq_true, HasSuffix_iff, HasSuffix_iff]
    exact hpath
  unfold classifiedMobile at hm
  unfold ServeHTTP
  simp only [hm, if_true, hsuf]
  split <;> rfl

theorem ServeHTTP_capture_failure (arch : Arch) (w : ResponseWriter) (r : Request)
    (next : Handler) (e : Err) (hm : classifiedMobile r = true)
    (hpath : lit ".html" <:+ r.Path ∨ lit "/" <:+ r.Path)
    (herr : (next (ServeHTTP arch w r next).r).2 = some e) :
    (ServeHTTP arch w r next).w =
      (nonWrites (next (ServeHTTP arch w r next).r).1).foldl ResponseWriter.apply w := by
  have hr := ServeHTTP_r arch w r next
  rw [if_pos hm] at hr
  rw [hr] at herr ⊢
  have hsuf : (HasSuffix r.Path (lit ".html") || HasSuffix r.Path (lit "/")) = true := by
    rw [Bool.or_eq_true, HasSuffix_iff, HasSuffix_iff]
    exact hpath
  unfold classifiedMobile at hm
  unfold ServeHTTP
  simp only [hm, if_true, hsuf, herr]
  exact capture_fold_writer _ _

theorem ServeHTTP_capture_success (arch : Arch) (w : ResponseWriter) (r : Request)
    (next : Handler) (hm : classifiedMobile r = true)
    (hpath : lit ".html" <:+ r.Path ∨ lit "/" <:+ r.Path)
    (hok : (next (ServeHTTP arch w r next).r).2 = none) :
    (ServeHTTP arch w r next).w =
      { header := (headerAfter (next (ServeHTTP arch w r next).r).1 w.header).Set
          (lit "Content-Length")
          (Itoa ((injectTouchPointsJS
            (writtenBytes (next (ServeHTTP arch w r next).r).1)).length : Int)),
        statusCalls :=
          ((nonWrites (next (ServeHTTP arch w r next).r).1).foldl
            ResponseWriter.apply w).statusCalls,
        writes := w.writes ++
          [injectTouchPointsJS (writtenBytes (next (ServeHTTP arch w r next).r).1)] } := by
  have hr := ServeHTTP_r arch w r next
  rw [if_pos hm] at hr
  rw [hr] at hok ⊢
  have hsuf : (HasSuffix r.Path (lit ".html") || HasSuffix r.Path (lit "/")) = true := by
    rw [Bool.or_eq_true, HasSuffix_iff, HasSuffix_iff]
    exact hpath
  unfold classifiedMobile at hm
  unfold ServeHTTP
  simp only [hm, if_true, hsuf, hok]
  obtain ⟨h1, h2⟩ := capture_fold
    (next { r with Header := annotate arch (r.Header.Get (lit "User-Agent")) r.Header }).1
    { ResponseWriter := w, buf := [] }
  have h3 := capture_fold_writer
    (next { r with Header := annotate arch (r.Header.Get (lit "User-Agent")) r.Header }).1
    { ResponseWriter := w, buf := [] }
  simp only [ResponseWriter.apply, h1, List.nil_append, h3, nonWrites_fold_writes,
    nonWrites_fold_header]

/-- C11: the next handler gets the capturing writer exactly when the request is
classified mobile and its path ends in `.html` or `/`. For every other request it gets
the real writer: the real writer then holds exactly the effects of the handler's own
calls, every `Write` in order and unmodified, its headers are the handler's own, and
`ServeHTTP` returns what the handler returns. For a mobile request to such a path the
body written is the injected one when the handler succeeds. `/data.json` is not such a
path, `/` and `/index.html` are. -/
theorem capture_only_for_mobile_html_paths (arch : Arch) (w : ResponseWriter) (r : Request)
    (next : Handler) :
    ((ServeHTTP arch w r next).calls = [(Sink.capture, (ServeHTTP arch w r next).r)] ↔
      (classifiedMobile r = true ∧ (lit ".html" <:+ r.Path ∨ lit "/" <:+ r.Path))) ∧
    (¬ (classifiedMobile r = true ∧ (lit ".html" <:+ r.Path ∨ lit "/" <:+ r.Path)) →
      (ServeHTTP arch w r next).calls = [(Sink.real, (ServeHTTP arch w r next).r)] ∧
      (ServeHTTP arch w r next).w =
        (next (ServeHTTP arch w r next).r).1.foldl ResponseWriter.apply w ∧
      (ServeHTTP arch w r next).w.writes =
        w.writes ++ writeCalls (next (ServeHTTP arch w r next).r).1 ∧
      (ServeHTTP arch w r next).w.header =
        headerAfter (next (ServeHTTP arch w r next).r).1 w.header ∧
      (ServeHTTP arch w r next).err = (next (ServeHTTP arch w r next).r).2) ∧
    (classifiedMobile r = true ∧ (lit ".html" <:+ r.Path ∨ lit "/" <:+ r.Path) →
      (next (ServeHTTP arch w r next).r).2 = none →
      (ServeHTTP arch w r next).w.writes =
        w.writes ++ [injectTouchPointsJS (writtenBytes (next (ServeHTTP arch w r next).r).1)]) ∧
    ¬ (lit ".html" <:+ lit "/data.json" ∨ lit "/" <:+ lit "/data.json") ∧
    lit "/" <:+ lit "/" ∧ lit ".html" <:+ lit "/index.html" := by
  have hpass : ¬ (classifiedMobile r = true ∧ (lit ".html" <:+ r.Path ∨ lit "/" <:+ r.Path)) →
      ∃ q, ServeHTTP arch w r next = forward w q next := by
    intro hn
    by_cases hm : classifiedMobile r = true
    · exact ⟨_, ServeHTTP_mobile_passthrough arch w r next hm (fun hp => hn ⟨hm, hp⟩)⟩
    · exact ⟨_, ServeHTTP_not_mobile arch w r next (by simpa using hm)⟩
  refine ⟨⟨?_, ?_⟩, ?_, ?_, ?_, ?_, ?_⟩
  · intro hc
    by_contra hn
    obtain ⟨q, hq⟩ := hpass hn
    rw [hq] at hc
    simp [forward] at hc
  · intro h
    exact ServeHTTP_capture_calls arch w r next h.1 h.2
  · intro hn
    obtain ⟨q, hq⟩ := hpass hn
    rw [hq]
    refine ⟨rfl, rfl, ?_, ?_, rfl⟩
    · exact real_fold_writes _ _
    · exact real_fold_header _ _
  · intro h hok
    rw [ServeHTTP_capture_success arch w r next h.1 h.2 hok]
  · rw [← HasSuffix_iff, ← HasSuffix_iff]
    decide
  · rw [← HasSuffix_iff]
    decide
  · rw [← HasSuffix_iff]
    decide

/-- C11 at a phone asking for `/data.json`: the handler gets the real writer and its
page reaches it as written. -/
theorem capture_only_for_mobile_html_paths_witness :
    ¬ (classifiedMobile phoneDataRequest = true ∧
      (lit ".html" <:+ phoneDataRequest.Path ∨ lit "/" <:+ phoneDataRequest.Path)) ∧
    (ServeHTTP Arch.w64 freshWriter phoneDataRequest pageHandler).calls =
      [(Sink.real, (ServeHTTP Arch.w64 freshWriter phoneDataRequest pageHandler).r)] ∧
    (ServeHTTP Arch.w64 freshWriter phoneDataRequest pageHandler).w.writes =
      freshWriter.writes ++
        writeCalls (pageHandler (ServeHTTP Arch.w64 freshWriter phoneDataRequest pageHandler).r).1 :=
  have hn : ¬ (classifiedMobile phoneDataRequest = true ∧
      (lit ".html" <:+ phoneDataRequest.Path ∨ lit "/" <:+ phoneDataRequest.Path)) := by
    rw [← HasSuffix_iff, ← HasSuffix_iff]
    decide
  have h := (capture_only_for_mobile_html_paths Arch.w64 freshWriter phoneDataRequest
    pageHandler).2.1 hn
  ⟨hn, h.1, h.2.2.1⟩

/-- C12: in capture mode, when the next handler returns an error, `ServeHTTP` returns
that error, the real writer receives no `Write` whatever the handler wrote, and nothing
else happens to it than the handler's own calls other than `Write`: no `Content-Length`
is set and nothing is injected. -/
theorem capture_failure_discards_output (arch : Arch) (w : ResponseWriter) (r : Request)
    (next : Handler) (e : Err) (hm : classifiedMobile r = true)
    (hpath : lit ".html" <:+ r.Path ∨ lit "/" <:+ r.Path)
    (herr : (next (ServeHTTP arch w r next).r).2 = some e) :
    (ServeHTTP arch w r next).err = some e ∧
    (ServeHTTP arch w r next).w.writes = w.writes ∧
    (ServeHTTP arch w r next).w =
      (nonWrites (next (ServeHTTP arch w r next).r).1).foldl ResponseWriter.apply w ∧
    (ServeHTTP arch w r next).w.header =
      headerAfter (next (ServeHTTP arch w r next).r).1 w.header := by
  have hw := ServeHTTP_capture_failure arch w r next e hm hpath herr
  refine ⟨?_, ?_, hw, ?_⟩
  · rw [ServeHTTP_err, herr]
  · rw [hw, nonWrites_fold_writes]
  · rw [hw, nonWrites_fold_header]

/-- C12 at a phone asking for `/index.html`, with a next handler that writes half a
page and fails. -/
theorem capture_failure_discards_output_witness :
    (classifiedMobile phoneRequest = true ∧ lit ".html" <:+ phoneRequest.Path ∧
      (failingHandler (ServeHTTP Arch.w64 freshWriter phoneRequest failingHandler).r).2 =
        some { msg := "upstream failed" }) ∧
    (ServeHTTP Arch.w64 freshWriter phoneRequest failingHandler).err =
      some { msg := "upstream failed" } ∧
    (ServeHTTP Arch.w64 freshWriter phoneRequest failingHandler).w.writes =
      freshWriter.writes :=
  have hm : classifiedMobile phoneRequest = true := by decide
  have hp : lit ".html" <:+ phoneRequest.Path := by
    rw [← HasSuffix_iff]
    decide
  have he : (failingHandler (ServeHTTP Arch.w64 freshWriter phoneRequest failingHandler).r).2 =
      some { msg := "upstream failed" } := rfl
  have h := capture_failure_discards_output Arch.w64 freshWriter phoneRequest failingHandler
    { msg := "upstream failed" } hm (Or.inl hp) he
  ⟨⟨hm, hp, he⟩, h.1, h.2.1⟩

/-- C17: in capture mode with a next handler that succeeds, the real response header
map is the one the handler's header mutations produce, at every key other than
`Content-Length`. -/
theorem capture_keeps_handler_headers (arch : Arch) (w : ResponseWriter) (r : Request)
    (next : Handler) (hm : classifiedMobile r = true)
    (hpath : lit ".html" <:+ r.Path ∨ lit "/" <:+ r.Path)
    (hok : (next (ServeHTTP arch w r next).r).2 = none) :
    ∀ k, k ≠ CanonicalMIMEHeaderKey (lit "Content-Length") →
      (ServeHTTP arch w r next).w.header k =
        headerAfter (next (ServeHTTP arch w r next).r).1 w.header k := by
  intro k hk
  rw [ServeHTTP_capture_success arch w r next hm hpath hok]
  exact Header.Set_other _ _ _ k hk

set_option maxRecDepth 100000 in
/-- C17 at a phone asking for `/index.html`, with a next handler that sets
`Content-Type: text/html`: the real response carries it. -/
theorem capture_keeps_handler_headers_witness :
    (classifiedMobile phoneRequest = true ∧ lit ".html" <:+ phoneRequest.Path ∧
      (typedHandler (ServeHTTP Arch.w64 freshWriter phoneRequest typedHandler).r).2 = none ∧
      CanonicalMIMEHeaderKey (lit "Content-Type") ≠
        CanonicalMIMEHeaderKey (lit "Content-Length")) ∧
    (ServeHTTP Arch.w64 freshWriter phoneRequest typedHandler).w.header
        (CanonicalMIMEHeaderKey (lit "Content-Type")) =
      headerAfter (typedHandler (ServeHTTP Arch.w64 freshWriter phoneRequest typedHandler).r).1
        freshWriter.header (CanonicalMIMEHeaderKey (lit "Content-Type")) ∧
    headerAfter (typedHandler (ServeHTTP Arch.w64 freshWriter phoneRequest typedHandler).r).1
        freshWriter.header (CanonicalMIMEHeaderKey (lit "Content-Type")) =
      some [lit "text/html"] :=
  have hm : classifiedMobile phoneRequest = true := by decide
  have hp : lit ".html" <:+ phoneRequest.Path := by
    rw [← HasSuffix_iff]
    decide
  have hok : (typedHandler (ServeHTTP Arch.w64 freshWriter phoneRequest typedHandler).r).2 =
      none := rfl
  have hk : CanonicalMIMEHeaderKey (lit "Content-Type") ≠
      CanonicalMIMEHeaderKey (lit "Content-Length") := by decide
  ⟨⟨hm, hp, hok, hk⟩,
    capture_keeps_handler_headers Arch.w64 freshWriter phoneRequest typedHandler hm (Or.inl hp)
      hok _ hk,
    by decide⟩

/-! ## Re-running the classifier and the client's touch-point value (C13, C16) -/

theorem key_userAgent_ne_ua : CanonicalMIMEHeaderKey (lit "User-Agent") ≠
    CanonicalMIMEHeaderKey (lit "X-DV-UA") := by decide

theorem key_userAgent_ne_deviceType : CanonicalMIMEHeaderKey (lit "User-Agent") ≠
    CanonicalMIMEHeaderKey (lit "X-DV-Device-Type") := by decide

theorem key_userAgent_ne_touchPoints : CanonicalMIMEHeaderKey (lit "User-Agent") ≠
    CanonicalMIMEHeaderKey (lit "X-DV-Touch-Points") := by decide

theorem key_userAgent_ne_suspicious : CanonicalMIMEHeaderKey (lit "User-Agent") ≠
    CanonicalMIMEHeaderKey (lit "X-DV-Suspicious-UA") := by decide

theorem annotate_Get_userAgent (arch : Arch) (ua : Bytes) (h : Header) :
    (annotate arch ua h).Get (lit "User-Agent") = h.Get (lit "User-Agent") := by
  rw [annotate_eq, Header.Get_Set_other _ _ _ _ key_userAgent_ne_suspicious,
    Header.Get_Set_other _ _ _ _ key_userAgent_ne_touchPoints,
    Header.Get_Set_other _ _ _ _ key_userAgent_ne_deviceType,
    Header.Get_Set_other _ _ _ _ key_userAgent_ne_ua]

theorem annotate_Get_touchPoints (arch : Arch) (ua : Bytes) (h : Header) :
    (annotate arch ua h).Get (lit "X-DV-Touch-Points") =
      if h.Get (lit "X-DV-Touch-Points") = [] then lit "-1"
      else h.Get (lit "X-DV-Touch-Points") := by
  rw [Header.Get_eq_firstValue, annotate_touchPoints]
  rfl

theorem effective_ne_nil (tp : Bytes) : (if tp = [] then lit "-1" else tp) ≠ [] := by
  split
  · decide
  · assumption

/-- Annotating an annotated header map again, with the same user agent, changes
nothing. -/
theorem annotate_annotate (arch : Arch) (ua : Bytes) (h : Header) :
    annotate arch ua (annotate arch ua h) = annotate arch ua h := by
  have htp := annotate_Get_touchPoints arch ua h
  have hne := effective_ne_nil (h.Get (lit "X-DV-Touch-Points"))
  funext k
  rw [annotate_eq arch ua (annotate arch ua h), htp, if_neg hne]
  by_cases h4 : k = CanonicalMIMEHeaderKey (lit "X-DV-Suspicious-UA")
  · rw [h4, Header.Set_same, annotate_suspicious]
  · rw [Header.Set_other _ _ _ _ h4]
    by_cases h3 : k = CanonicalMIMEHeaderKey (lit "X-DV-Touch-Points")
    · rw [h3, Header.Set_same, annotate_touchPoints]
    · rw [Header.Set_other _ _ _ _ h3]
      by_cases h2 : k = CanonicalMIMEHeaderKey (lit "X-DV-Device-Type")
      · rw [h2, Header.Set_same, annotate_deviceType]
      · rw [Header.Set_other _ _ _ _ h2]
        by_cases h1 : k = CanonicalMIMEHeaderKey (lit "X-DV-UA")
        · rw [h1, Header.Set_same, annotate_ua]
        · rw [Header.Set_other _ _ _ _ h1]

theorem classifiedMobile_annotated (arch : Arch) (w : ResponseWriter) (r : Request)
    (next : Handler) :
    classifiedMobile (ServeHTTP arch w r next).r = classifiedMobile r ∧
    (ServeHTTP arch w r next).r.Header.Get (lit "User-Agent") =
      r.Header.Get (lit "User-Agent") := by
  rw [ServeHTTP_r]
  unfold classifiedMobile
  split
  · simp only [annotate_Get_userAgent, and_self]
  · exact ⟨rfl, rfl⟩

/-- C13: the header annotation is idempotent. Annotating an annotated header map again
with the same user agent gives the same map; and running `ServeHTTP` on the request a
first run left behind, whose `User-Agent` is the one received, leaves exactly that
request, whatever the writers and next handlers of the two runs. -/
theorem classification_idempotent (arch : Arch) (w w2 : ResponseWriter) (r : Request)
    (next next2 : Handler) (ua : Bytes) (h : Header) :
    annotate arch ua (annotate arch ua h) = annotate arch ua h ∧
    (ServeHTTP arch w r next).r.Header.Get (lit "User-Agent") =
      r.Header.Get (lit "User-Agent") ∧
    (ServeHTTP arch w2 (ServeHTTP arch w r next).r next2).r = (ServeHTTP arch w r next).r := by
  obtain ⟨hc, hu⟩ := classifiedMobile_annotated arch w r next
  refine ⟨annotate_annotate arch ua h, hu, ?_⟩
  rw [ServeHTTP_r arch w2, hc, hu]
  by_cases hm : classifiedMobile r = true
  · rw [if_pos hm, ServeHTTP_r, if_pos hm]
    simp only [annotate_annotate]
  · rw [if_neg hm]

/-- C16: on a mobile request whose first `X-DV-Touch-Points` value `s` is not empty,
the request comes out with `X-DV-Touch-Points` bound to `s` itself, whether `s` is a
number or not. -/
theorem touch_points_value_passed_through (arch : Arch) (w : ResponseWriter) (r : Request)
    (next : Handler) (s : Bytes) (hm : classifiedMobile r = true)
    (hs : r.Header.Get (lit "X-DV-Touch-Points") = s) (hne : s ≠ []) :
    (ServeHTTP arch w r next).r.Header (CanonicalMIMEHeaderKey (lit "X-DV-Touch-Points")) =
      some [s] ∧
    (ServeHTTP arch w r next).r.Header.Get (lit "X-DV-Touch-Points") = s := by
  have h1 : (ServeHTTP arch w r next).r.Header
      (CanonicalMIMEHeaderKey (lit "X-DV-Touch-Points")) = some [s] := by
    rw [ServeHTTP_r_mobile arch w r next hm, annotate_touchPoints, hs, if_neg hne]
  refine ⟨h1, ?_⟩
  rw [Header.Get_eq_firstValue, h1]
  rfl

/-- C16 at phones that send `5`, `abc` and ` 3` as their touch-point count. -/
theorem touch_points_value_passed_through_witness :
    (classifiedMobile (phoneRequestWithTouchPoints (lit " 3")) = true ∧
      (phoneRequestWithTouchPoints (lit " 3")).Header.Get (lit "X-DV-Touch-Points") = lit " 3" ∧
      lit " 3" ≠ []) ∧
    (ServeHTTP Arch.w64 freshWriter (phoneRequestWithTouchPoints (lit " 3")) pageHandler).r.Header
      (CanonicalMIMEHeaderKey (lit "X-DV-Touch-Points")) = some [lit " 3"] ∧
    (ServeHTTP Arch.w64 freshWriter (phoneRequestWithTouchPoints (lit "abc")) pageHandler).r.Header
      (CanonicalMIMEHeaderKey (lit "X-DV-Touch-Points")) = some [lit "abc"] ∧
    (ServeHTTP Arch.w64 freshWriter (phoneRequestWithTouchPoints (lit "5")) pageHandler).r.Header
      (CanonicalMIMEHeaderKey (lit "X-DV-Touch-Points")) = some [lit "5"] :=
  have hm : classifiedMobile (phoneRequestWithTouchPoints (lit " 3")) = true := by decide
  have hs : (phoneRequestWithTouchPoints (lit " 3")).Header.Get (lit "X-DV-Touch-Points") =
      lit " 3" := by decide
  have hne : lit " 3" ≠ [] := by decide
  ⟨⟨hm, hs, hne⟩,
    (touch_points_value_passed_through Arch.w64 freshWriter
      (phoneRequestWithTouchPoints (lit " 3")) pageHandler (lit " 3") hm hs hne).1,
    (touch_points_value_passed_through Arch.w64 freshWriter
      (phoneRequestWithTouchPoints (lit "abc")) pageHandler (lit "abc") (by decide) (by decide)
      (by decide)).1,
    (touch_points_value_passed_through Arch.w64 freshWriter
      (phoneRequestWithTouchPoints (lit "5")) pageHandler (lit "5") (by decide) (by decide)
      (by decide)).1⟩

/-! ## The payload and the closing tag (C15, C20) -/

set_option maxRecDepth 100000 in
theorem script_suffix_tag : bodyTag <:+ script := by
  rw [← HasSuffix_iff]
  decide!

/-- C15: the payload ends with `</body>` and holds it exactly once, as its last seven
bytes. -/
theorem script_ends_with_single_closing_tag :
    bodyTag <:+ script ∧ occurrences bodyTag script = 1 ∧
    ∀ m, bodyTag <+: script.drop m ↔ m = script.length - 7 := by
  have h : ∀ m, bodyTag <+: script.drop m ↔ m = script.length - 7 := by
    intro m
    rw [script_occurs_iff, script_length]
  exact ⟨script_suffix_tag, occurrences_of_unique script bodyTag (by decide) _ h, h⟩

theorem last_occurrence_at_end (X : Bytes) :
    bodyTag <+: (X ++ bodyTag).drop X.length ∧
    ∀ j, X.length < j → ¬ bodyTag <+: (X ++ bodyTag).drop j := by
  constructor
  · rw [List.drop_left]
  · intro j hj hp
    have h := occurs_length (X ++ bodyTag) bodyTag j hp (by decide)
    rw [List.length_append] at h
    omega

/-- The output for a body that ends with the closing tag: the bytes before the tag,
then the payload. -/
theorem inject_append_tag (X : Bytes) : injectTouchPointsJS (X ++ bodyTag) = X ++ script := by
  obtain ⟨h1, h2⟩ := last_occurrence_at_end X
  rw [inject_of_last (X ++ bodyTag) X.length h1 h2, List.take_left]
  have hd : (X ++ bodyTag).drop (X.length + 7) = [] := by
    rw [List.drop_eq_nil_iff, List.length_append, bodyTag_length]
  rw [hd, List.append_nil]

/-- C20: for a body `X` without `</body>`, `injectTouchPointsJS` gives the same output
on `X` and on `X` followed by `</body>`, two different inputs; so the function is not
injective. -/
theorem inject_not_injective (X : Bytes) (h : ¬ bodyTag <:+: X) :
    injectTouchPointsJS X = injectTouchPointsJS (X ++ bodyTag) ∧
    X ≠ X ++ bodyTag ∧
    ¬ Function.Injective injectTouchPointsJS := by
  have hne : ∀ Y : Bytes, Y ≠ Y ++ bodyTag := by
    intro Y he
    have := congrArg List.length he
    rw [List.length_append, bodyTag_length] at this
    omega
  refine ⟨?_, hne X, ?_⟩
  · rw [inject_of_absent X h, inject_append_tag]
  · intro hinj
    have hnil : ¬ bodyTag <:+: ([] : Bytes) := by
      rw [← Contains_iff]
      decide
    have he : injectTouchPointsJS [] = injectTouchPointsJS ([] ++ bodyTag) := by
      rw [inject_of_absent [] hnil, inject_append_tag]
    exact hne [] (hinj he)

/-- C20 on the page `<html><body>hi`, with and without the closing tag appended. -/
theorem inject_not_injective_witness :
    ¬ bodyTag <:+: lit "<html><body>hi" ∧
    injectTouchPointsJS (lit "<html><body>hi") =
      injectTouchPointsJS (lit "<html><body>hi" ++ bodyTag) ∧
    lit "<html><body>hi" ≠ lit "<html><body>hi" ++ bodyTag :=
  have h : ¬ bodyTag <:+: lit "<html><body>hi" := by
    rw [← Contains_iff]
    decide
  have hc := inject_not_injective (lit "<html><body>hi") h
  ⟨h, hc.1, hc.2.1⟩

/-- The shape of every output: a prefix of the body, the payload, a suffix of the
body; the body is the two with the closing tag in between, or it has no closing tag
and the suffix is empty. -/
theorem inject_shape (body : Bytes) :
    ∃ pre post, injectTouchPointsJS body = pre ++ script ++ post ∧
      pre <+: body ∧ post <:+ body ∧
      (body = pre ++ bodyTag ++ post ∨ (body = pre ∧ post = [] ∧ ¬ bodyTag <:+: body)) := by
  by_cases h : bodyTag <:+: body
  · have hL : LastIndex body bodyTag ≠ -1 := by
      intro hneg
      obtain ⟨s, t, hst⟩ := h
      apply LastIndex_neg_one body bodyTag hneg s.length
      rw [← hst, List.append_assoc, List.drop_left]
      exact List.prefix_append _ _
    have hge := LastIndex_ge_neg_one body bodyTag
    obtain ⟨i, hi⟩ : ∃ i : Nat, LastIndex body bodyTag = (i : Int) :=
      ⟨(LastIndex body bodyTag).toNat, by omega⟩
    obtain ⟨hocc, hlast⟩ := LastIndex_spec body bodyTag (by decide) i hi
    refine ⟨body.take i, body.drop (i + 7), inject_of_last body i hocc hlast,
      List.take_prefix _ _, List.drop_suffix _ _, Or.inl ?_⟩
    have := split_at_occurrence body bodyTag i hocc
    rw [bodyTag_length] at this
    exact this
  · exact ⟨body, [], by rw [inject_of_absent body h, List.append_nil],
      List.prefix_refl _, List.nil_suffix, Or.inr ⟨rfl, rfl, h⟩⟩

/-! ## Occurrences of the payload in the output (C14) -/

theorem noTailIsPrefix_spec (whole : Bytes) : ∀ (s : Bytes), noTailIsPrefix whole s = true →
    ∀ d, d < s.length → (s.drop d).isPrefixOf whole = false := by
  intro s
  induction s with
  | nil => intro _ d hd; simp at hd
  | cons c t ih =>
    intro h d hd
    unfold noTailIsPrefix at h
    rw [Bool.and_eq_true] at h
    cases d with
    | zero => simpa using h.1
    | succ k =>
      rw [List.drop_succ_cons]
      exact ih h.2 k (by simpa using hd)

set_option maxRecDepth 100000 in
theorem script_tails : noTailIsPrefix script (script.drop 1) = true := by decide!

/-- The payload has no border: no proper non-empty end of it is also a beginning of
it. -/
theorem script_no_border (d : Nat) (hd : d < 933) :
    (script.drop (d + 1)).isPrefixOf script = false := by
  have h := noTailIsPrefix_spec script (script.drop 1) script_tails d
    (by rw [List.length_drop, script_length]; omega)
  rw [List.drop_drop] at h
  have e : 1 + d = d + 1 := by omega
  rw [e] at h
  exact h

theorem script_ne_nil : script ≠ [] := by
  intro h
  have := script_length
  rw [h] at this
  exact absurd this (by decide)

/-- Where the payload can occur in `pre ++ script ++ post`: inside `pre`, at the place
where it was put, or inside `post`; it never overlaps the copy that was put there. -/
theorem script_occurs_around (pre post : Bytes) (j : Nat)
    (h : script <+: (pre ++ script ++ post).drop j) :
    (j + 934 ≤ pre.length ∧ script <+: pre.drop j) ∨ j = pre.length ∨
    (pre.length + 934 ≤ j ∧ script <+: post.drop (j - (pre.length + 934))) := by
  have htag : bodyTag <+: (pre ++ script ++ post).drop (j + 927) := by
    obtain ⟨t, ht⟩ := h
    have h927 : bodyTag <+: script.drop 927 := (script_occurs_iff 927).mpr rfl
    rw [← List.drop_drop, ← ht, List.drop_append_of_le_length (by rw [script_length]; omega)]
    exact h927.trans (List.prefix_append _ _)
  rw [occurs_around_script, script_length] at htag
  rcases htag with ⟨h1, _⟩ | h1 | ⟨h1, _⟩
  · left
    refine ⟨by omega, ?_⟩
    rw [List.append_assoc] at h
    exact (occurs_append_left pre (script ++ post) script j
      (by rw [script_length]; omega)).mp h
  · right; left
    omega
  · by_cases hfar : pre.length + 934 ≤ j
    · right; right
      refine ⟨hfar, ?_⟩
      rw [List.append_assoc, drop_append_right pre (script ++ post) j (by omega),
        drop_append_right script post (j - pre.length) (by rw [script_length]; omega),
        script_length] at h
      have e : j - pre.length - 934 = j - (pre.length + 934) := by omega
      rw [e] at h
      exact h
    · exfalso
      rw [List.append_assoc, drop_append_right pre (script ++ post) j (by omega),
        List.drop_append_of_le_length (by rw [script_length]; omega)] at h
      have hb : script.drop (j - pre.length) <+: script := by
        apply List.prefix_of_prefix_length_le (List.prefix_append _ _) h
        rw [List.length_drop]
        omega
      have hd : j - pre.length = (j - pre.length - 1) + 1 := by omega
      rw [hd] at hb
      have := script_no_border (j - pre.length - 1) (by omega)
      rw [List.isPrefixOf_iff_prefix.mpr hb] at this
      exact Bool.noConfusion this

/-- C14: when the body does not contain the payload, the output of
`injectTouchPointsJS` contains the payload exactly once. -/
theorem inject_payload_exactly_once (body : Bytes) (h : ¬ script <:+: body) :
    occurrences script (injectTouchPointsJS body) = 1 := by
  obtain ⟨pre, post, hout, hpre, hpost, _⟩ := inject_shape body
  apply occurrences_of_unique _ script script_ne_nil pre.length
  intro j
  rw [hout]
  constructor
  · intro hj
    rcases script_occurs_around pre post j hj with ⟨_, h1⟩ | h1 | ⟨_, h1⟩
    · exfalso
      exact h ((h1.isInfix.trans (List.drop_suffix j pre).isInfix).trans hpre.isInfix)
    · exact h1
    · exfalso
      exact h ((h1.isInfix.trans (List.drop_suffix _ post).isInfix).trans hpost.isInfix)
  · intro hj
    rw [hj, List.append_assoc, List.drop_left]
    exact List.prefix_append _ _

set_option maxRecDepth 100000 in
/-- C14 on the page `<html><body>hi</body></html>`. -/
theorem inject_payload_exactly_once_witness :
    ¬ script <:+: lit "<html><body>hi</body></html>" ∧
    occurrences script (injectTouchPointsJS (lit "<html><body>hi</body></html>")) = 1 :=
  have h : ¬ script <:+: lit "<html><body>hi</body></html>" := by
    rw [← Contains_iff]
    decide!
  ⟨h, inject_payload_exactly_once (lit "<html><body>hi</body></html>") h⟩

/-! ## Counting the closing tags of the output (C19) -/

theorem countP_range_add (p : Nat → Bool) (a b : Nat) :
    List.countP p (List.range (a + b)) =
      List.countP p (List.range a) + List.countP (fun k => p (a + k)) (List.range b) := by
  rw [List.range_add, List.countP_append, List.countP_map]
  rfl

/-- The number of closing tags in `pre ++ M ++ post`, for a middle part `M` as in
`occurs_around`: those that lie inside `pre`, one at the end of `M`, and those of
`post`. -/
theorem occurrences_around (M : Bytes) (hlen : 7 ≤ M.length)
    (P1 : ∀ k, 0 < k → k < 7 → M[0]? ≠ bodyTag[k]?)
    (P2 : ∀ m, m + 7 ≤ M.length → (bodyTag <+: M.drop m ↔ m + 7 = M.length))
    (P3 : ∀ m, M.length < m + 7 → m < M.length → M[m]? ≠ some 60)
    (pre post : Bytes) :
    occurrences bodyTag (pre ++ M ++ post) =
      List.countP (fun j => decide (j + 7 ≤ pre.length) && bodyTag.isPrefixOf (pre.drop j))
        (List.range pre.length) + 1 + occurrences bodyTag post := by
  have hp : ∀ j, bodyTag.isPrefixOf ((pre ++ M ++ post).drop j) = true ↔
      ((j + 7 ≤ pre.length ∧ bodyTag <+: pre.drop j) ∨ j + 7 = pre.length + M.length ∨
      (pre.length + M.length ≤ j ∧
        bodyTag <+: post.drop (j - (pre.length + M.length)))) := by
    intro j
    rw [List.isPrefixOf_iff_prefix]
    exact occurs_around M hlen P1 P2 P3 pre post j
  have hl : (pre ++ M ++ post).length + 1 =
      pre.length + ((M.length - 7) + (7 + (post.length + 1))) := by
    rw [List.length_append, List.length_append]
    omega
  unfold occurrences
  rw [hl, countP_range_add, countP_range_add, countP_range_add]
  have hA : List.countP (fun i => bodyTag.isPrefixOf ((pre ++ M ++ post).drop i))
      (List.range pre.length) =
      List.countP (fun j => decide (j + 7 ≤ pre.length) && bodyTag.isPrefixOf (pre.drop j))
        (List.range pre.length) := by
    apply List.countP_congr
    intro j hj
    rw [List.mem_range] at hj
    rw [hp j, Bool.and_eq_true, decide_eq_true_iff, List.isPrefixOf_iff_prefix]
    constructor
    · rintro (h | h | ⟨h, _⟩)
      · exact h
      · omega
      · omega
    · intro h
      exact Or.inl h
  have hB : List.countP (fun k => bodyTag.isPrefixOf ((pre ++ M ++ post).drop (pre.length + k)))
      (List.range (M.length - 7)) = 0 := by
    rw [List.countP_eq_zero]
    intro k hk
    rw [List.mem_range] at hk
    rw [hp]
    rintro (⟨h, _⟩ | h | ⟨h, _⟩) <;> omega
  have hC : List.countP (fun k => bodyTag.isPrefixOf
      ((pre ++ M ++ post).drop (pre.length + (M.length - 7 + k)))) (List.range 7) = 1 := by
    have hc : List.countP (fun k => bodyTag.isPrefixOf
        ((pre ++ M ++ post).drop (pre.length + (M.length - 7 + k)))) (List.range 7) =
        List.countP (fun k => k == 0) (List.range 7) := by
      apply List.countP_congr
      intro k hk
      rw [List.mem_range] at hk
      rw [hp, beq_iff_eq]
      constructor
      · rintro (⟨h, _⟩ | h | ⟨h, _⟩) <;> omega
      · intro h
        exact Or.inr (Or.inl (by omega))
    rw [hc]
    decide
  have hD : List.countP (fun k => bodyTag.isPrefixOf
      ((pre ++ M ++ post).drop (pre.length + (M.length - 7 + (7 + k)))))
      (List.range (post.length + 1)) =
      List.countP (fun i => bodyTag.isPrefixOf (post.drop i)) (List.range (post.length + 1)) := by
    apply List.countP_congr
    intro k _
    have e : pre.length + (M.length - 7 + (7 + k)) - (pre.length + M.length) = k := by omega
    rw [hp, e, List.isPrefixOf_iff_prefix]
    constructor
    · rintro (⟨h, _⟩ | h | ⟨_, h⟩)
      · omega
      · omega
      · exact h
    · intro h
      exact Or.inr (Or.inr ⟨by omega, h⟩)
  rw [hA, hB, hC, hD]
  omega

theorem occurrences_around_script (pre post : Bytes) :
    occurrences bodyTag (pre ++ script ++ post) =
      List.countP (fun j => decide (j + 7 ≤ pre.length) && bodyTag.isPrefixOf (pre.drop j))
        (List.range pre.length) + 1 + occurrences bodyTag post := by
  apply occurrences_around script
  · rw [script_length]
    omega
  · intro k h0 h7
    rw [script_head]
    interval_cases k <;> decide
  · intro m _
    rw [script_occurs_iff, script_length]
    omega
  · intro m h1 h2
    rw [script_length] at h1 h2
    obtain ⟨k, rfl⟩ : ∃ k, m = 928 + k := ⟨m - 928, by omega⟩
    exact script_tail_no_open k (by omega)

theorem occurrences_around_bodyTag (pre post : Bytes) :
    occurrences bodyTag (pre ++ bodyTag ++ post) =
      List.countP (fun j => decide (j + 7 ≤ pre.length) && bodyTag.isPrefixOf (pre.drop j))
        (List.range pre.length) + 1 + occurrences bodyTag post := by
  apply occurrences_around bodyTag
  · rw [bodyTag_length]
  · intro k h0 h7
    interval_cases k <;> decide
  · intro m hm
    rw [bodyTag_length] at hm ⊢
    have h0 : m = 0 := by omega
    subst h0
    simp
  · intro m h1 h2
    rw [bodyTag_length] at h1 h2
    have h0 : 0 < m := by omega
    interval_cases m <;> decide

theorem occurrences_of_absent (s sep : Bytes) (h : ¬ sep <:+: s) : occurrences sep s = 0 := by
  unfold occurrences
  rw [List.countP_eq_zero]
  intro j _ hp
  exact not_occurs_of_absent s sep h j (List.isPrefixOf_iff_prefix.mp hp)

/-- C19: the output of `injectTouchPointsJS` always contains `</body>`; it ends with
`</body>` when the input has none; and the number of `</body>` in the output is the
number in the input, or one when the input has none. -/
theorem inject_closing_tag_count (content : Bytes) :
    bodyTag <:+: injectTouchPointsJS content ∧
    (¬ bodyTag <:+: content → bodyTag <:+ injectTouchPointsJS content) ∧
    occurrences bodyTag (injectTouchPointsJS content) =
      max 1 (occurrences bodyTag content) := by
  obtain ⟨pre, post, hout, _, _, hshape⟩ := inject_shape content
  refine ⟨?_, ?_, ?_⟩
  · rw [hout]
    obtain ⟨s0, hs0⟩ := script_suffix_tag
    exact ⟨pre ++ s0, post, by rw [← hs0]; simp only [List.append_assoc]⟩
  · intro h
    rw [inject_of_absent content h]
    exact script_suffix_tag.trans (List.suffix_append _ _)
  · rw [hout, occurrences_around_script]
    rcases hshape with hs | ⟨hs, hp, hn⟩
    · have hc : occurrences bodyTag content =
          List.countP (fun j => decide (j + 7 ≤ pre.length) && bodyTag.isPrefixOf (pre.drop j))
            (List.range pre.length) + 1 + occurrences bodyTag post := by
        rw [hs]
        exact occurrences_around_bodyTag pre post
      rw [hc, Nat.max_eq_right (by omega)]
    · have h0 : List.countP
          (fun j => decide (j + 7 ≤ pre.length) && bodyTag.isPrefixOf (pre.drop j))
          (List.range pre.length) = 0 := by
        rw [List.countP_eq_zero]
        intro j _ hj
        rw [Bool.and_eq_true, List.isPrefixOf_iff_prefix] at hj
        rw [← hs] at hj
        exact not_occurs_of_absent content bodyTag hn j hj.2
      have h1 : occurrences bodyTag post = 0 := by
        rw [hp]
        decide
      rw [h0, h1, occurrences_of_absent content bodyTag hn]
      rfl

set_option maxRecDepth 100000 in
/-- C19 on the page `<html><body>hi`, which has no closing tag: the output ends with
one and holds exactly one. -/
theorem inject_closing_tag_count_witness :
    ¬ bodyTag <:+: lit "<html><body>hi" ∧
    bodyTag <:+ injectTouchPointsJS (lit "<html><body>hi") ∧
    occurrences bodyTag (lit "<html><body>hi") = 0 ∧
    occurrences bodyTag (injectTouchPointsJS (lit "<html><body>hi")) =
      max 1 (occurrences bodyTag (lit "<html><body>hi")) :=
  have h : ¬ bodyTag <:+: lit "<html><body>hi" := by
    rw [← Contains_iff]
    decide
  have hc := inject_closing_tag_count (lit "<html><body>hi")
  ⟨h, hc.2.1 h, by decide, hc.2.2⟩

/-! ## One call of the next handler (C18) -/

theorem real_fold_status (ops : List WriterOp) : ∀ w : ResponseWriter,
    (ops.foldl ResponseWriter.apply w).statusCalls = w.statusCalls ++ statusCodes ops := by
  induction ops with
  | nil => intro w; simp [statusCodes]
  | cons op rest ih =>
    intro w
    rw [List.foldl_cons, ih]
    cases op <;> simp [ResponseWriter.apply, statusCodes]

theorem nonWrites_fold_status (ops : List WriterOp) : ∀ w : ResponseWriter,
    ((nonWrites ops).foldl ResponseWriter.apply w).statusCalls =
      w.statusCalls ++ statusCodes ops := by
  induction ops with
  | nil => intro w; simp [statusCodes, nonWrites]
  | cons op rest ih =>
    intro w
    cases op with
    | Write p => exact ih w
    | mutateHeader f =>
      show (List.foldl ResponseWriter.apply _ (nonWrites rest)).statusCalls = _
      rw [ih]
      rfl
    | WriteHeader code =>
      show (List.foldl ResponseWriter.apply _ (nonWrites rest)).statusCalls = _
      rw [ih]
      simp [ResponseWriter.apply, statusCodes]

/-- The request handed to the next handler does not depend on the next handler. -/
theorem ServeHTTP_r_indep (arch : Arch) (w w2 : ResponseWriter) (r : Request)
    (next next2 : Handler) :
    (ServeHTTP arch w2 r next2).r = (ServeHTTP arch w r next).r := by
  rw [ServeHTTP_r, ServeHTTP_r]

/-- The outcome of `ServeHTTP` depends on the next handler only through what it does on
the one request it is handed. -/
theorem ServeHTTP_congr_next (arch : Arch) (w : ResponseWriter) (r : Request)
    (next next2 : Handler)
    (h : next2 (ServeHTTP arch w r next).r = next (ServeHTTP arch w r next).r) :
    ServeHTTP arch w r next2 = ServeHTTP arch w r next := by
  rw [ServeHTTP_r] at h
  unfold ServeHTTP forward
  unfold classifiedMobile at h
  simp only []
  split
  · rename_i hm
    rw [if_pos hm] at h
    simp only [h]
  · rename_i hm
    rw [if_neg hm] at h
    simp only [h]

/-- C18: whatever the request and whatever the next handler does, `ServeHTTP` calls the
next handler exactly once, with the original request, its headers annotated when it is
classified mobile. The call is visible in the outcome: the error returned is the one
that run of the handler returns; each `WriteHeader` call and each header mutation of
that run reaches the real writer once, in order (`Content-Length` apart, which capture
mode overwrites); with the real writer the writer ends as that run leaves it, with the
capturing writer the handler's writes are replaced by one injected write on success and
dropped on failure; and the outcome depends on the handler only through what it does on
that one request. -/
theorem next_called_exactly_once (arch : Arch) (w : ResponseWriter) (r : Request)
    (next : Handler) :
    (ServeHTTP arch w r next).calls.length = 1 ∧
    (∃ s, (ServeHTTP arch w r next).calls = [(s, (ServeHTTP arch w r next).r)]) ∧
    (ServeHTTP arch w r next).r.Path = r.Path ∧
    ((ServeHTTP arch w r next).r.Header =
      if classifiedMobile r = true then
        annotate arch (r.Header.Get (lit "User-Agent")) r.Header
      else r.Header) ∧
    (ServeHTTP arch w r next).err = (next (ServeHTTP arch w r next).r).2 ∧
    (ServeHTTP arch w r next).w.statusCalls =
      w.statusCalls ++ statusCodes (next (ServeHTTP arch w r next).r).1 ∧
    (∀ k, k ≠ CanonicalMIMEHeaderKey (lit "Content-Length") →
      (ServeHTTP arch w r next).w.header k =
        headerAfter (next (ServeHTTP arch w r next).r).1 w.header k) ∧
    ((ServeHTTP arch w r next).calls = [(Sink.real, (ServeHTTP arch w r next).r)] →
      (ServeHTTP arch w r next).w =
        (next (ServeHTTP arch w r next).r).1.foldl ResponseWriter.apply w) ∧
    ((ServeHTTP arch w r next).calls = [(Sink.capture, (ServeHTTP arch w r next).r)] →
      (next (ServeHTTP arch w r next).r).2 = none →
      (ServeHTTP arch w r next).w.writes =
        w.writes ++
          [injectTouchPointsJS (writtenBytes (next (ServeHTTP arch w r next).r).1)]) ∧
    ((ServeHTTP arch w r next).calls = [(Sink.capture, (ServeHTTP arch w r next).r)] →
      ∀ e, (next (ServeHTTP arch w r next).r).2 = some e →
      (ServeHTTP arch w r next).w =
        (nonWrites (next (ServeHTTP arch w r next).r).1).foldl ResponseWriter.apply w) ∧
    (∀ next2 : Handler,
      next2 (ServeHTTP arch w r next).r = next (ServeHTTP arch w r next).r →
      ServeHTTP arch w r next2 = ServeHTTP arch w r next) := by
  obtain ⟨s, hs⟩ := ServeHTTP_calls arch w r next
  refine ⟨by rw [hs]; rfl, ⟨s, hs⟩, ?_, ?_, ServeHTTP_err arch w r next, ?_, ?_, ?_, ?_, ?_,
    fun next2 h => ServeHTTP_congr_next arch w r next next2 h⟩
  · rw [ServeHTTP_r]
    split <;> rfl
  · rw [ServeHTTP_r]
    split <;> rfl
  · by_cases hcap : classifiedMobile r = true ∧ (lit ".html" <:+ r.Path ∨ lit "/" <:+ r.Path)
    · cases hout : (next (ServeHTTP arch w r next).r).2 with
      | none =>
        rw [ServeHTTP_capture_success arch w r next hcap.1 hcap.2 hout]
        exact nonWrites_fold_status _ _
      | some e =>
        rw [ServeHTTP_capture_failure arch w r next e hcap.1 hcap.2 hout]
        exact nonWrites_fold_status _ _
    · have hq : ∃ q, ServeHTTP arch w r next = forward w q next := by
        by_cases hm : classifiedMobile r = true
        · exact ⟨_, ServeHTTP_mobile_passthrough arch w r next hm (fun hp => hcap ⟨hm, hp⟩)⟩
        · exact ⟨_, ServeHTTP_not_mobile arch w r next (by simpa using hm)⟩
      obtain ⟨q, hq⟩ := hq
      rw [hq]
      exact real_fold_status _ _
  · intro k hk
    by_cases hcap : classifiedMobile r = true ∧ (lit ".html" <:+ r.Path ∨ lit "/" <:+ r.Path)
    · cases hout : (next (ServeHTTP arch w r next).r).2 with
      | none =>
        rw [ServeHTTP_capture_success arch w r next hcap.1 hcap.2 hout]
        exact Header.Set_other _ _ _ k hk
      | some e =>
        rw [ServeHTTP_capture_failure arch w r next e hcap.1 hcap.2 hout,
          nonWrites_fold_header]
    · have hq : ∃ q, ServeHTTP arch w r next = forward w q next := by
        by_cases hm : classifiedMobile r = true
        · exact ⟨_, ServeHTTP_mobile_passthrough arch w r next hm (fun hp => hcap ⟨hm, hp⟩)⟩
        · exact ⟨_, ServeHTTP_not_mobile arch w r next (by simpa using hm)⟩
      obtain ⟨q, hq⟩ := hq
      rw [hq]
      exact congrFun (real_fold_header _ _) k
  · intro hreal
    by_cases hcap : classifiedMobile r = true ∧ (lit ".html" <:+ r.Path ∨ lit "/" <:+ r.Path)
    · have hc := ServeHTTP_capture_calls arch w r next hcap.1 hcap.2
      rw [hc] at hreal
      simp at hreal
    · have hq : ∃ q, ServeHTTP arch w r next = forward w q next := by
        by_cases hm : classifiedMobile r = true
        · exact ⟨_, ServeHTTP_mobile_passthrough arch w r next hm (fun hp => hcap ⟨hm, hp⟩)⟩
        · exact ⟨_, ServeHTTP_not_mobile arch w r next (by simpa using hm)⟩
      obtain ⟨q, hq⟩ := hq
      rw [hq]
      rfl
  · intro hc hout
    by_cases hcap : classifiedMobile r = true ∧ (lit ".html" <:+ r.Path ∨ lit "/" <:+ r.Path)
    · rw [ServeHTTP_capture_success arch w r next hcap.1 hcap.2 hout]
    · exfalso
      by_cases hm : classifiedMobile r = true
      · rw [ServeHTTP_mobile_passthrough arch w r next hm (fun hp => hcap ⟨hm, hp⟩)] at hc
        simp [forward] at hc
      · rw [ServeHTTP_not_mobile arch w r next (by simpa using hm)] at hc
        simp [forward] at hc
  · intro hc e hout
    by_cases hcap : classifiedMobile r = true ∧ (lit ".html" <:+ r.Path ∨ lit "/" <:+ r.Path)
    · exact ServeHTTP_capture_failure arch w r next e hcap.1 hcap.2 hout
    · exfalso
      by_cases hm : classifiedMobile r = true
      · rw [ServeHTTP_mobile_passthrough arch w r next hm (fun hp => hcap ⟨hm, hp⟩)] at hc
        simp [forward] at hc
      · rw [ServeHTTP_not_mobile arch w r next (by simpa using hm)] at hc
        simp [forward] at hc

/-- C18 at a desktop asking for `/index.html` and at a phone asking for `/index.html`,
with a next handler that sends status 502, writes a short body and fails: the failure
is returned and the status reaches the real writer once in both; the body reaches it
from the desktop only. -/
theorem next_called_exactly_once_witness :
    ((ServeHTTP Arch.w64 freshWriter desktopRequest badGatewayHandler).calls =
        [(Sink.real, (ServeHTTP Arch.w64 freshWriter desktopRequest badGatewayHandler).r)] ∧
      (ServeHTTP Arch.w64 freshWriter desktopRequest badGatewayHandler).w =
        (badGatewayHandler
          (ServeHTTP Arch.w64 freshWriter desktopRequest badGatewayHandler).r).1.foldl
          ResponseWriter.apply freshWriter ∧
      (ServeHTTP Arch.w64 freshWriter desktopRequest badGatewayHandler).w.writes =
        [lit "bad gateway"] ∧
      (ServeHTTP Arch.w64 freshWriter desktopRequest badGatewayHandler).w.statusCalls = [502] ∧
      (ServeHTTP Arch.w64 freshWriter desktopRequest badGatewayHandler).err =
        some { msg := "bad gateway" }) ∧
    ((ServeHTTP Arch.w64 freshWriter phoneRequest badGatewayHandler).calls =
        [(Sink.capture, (ServeHTTP Arch.w64 freshWriter phoneRequest badGatewayHandler).r)] ∧
      (ServeHTTP Arch.w64 freshWriter phoneRequest badGatewayHandler).w =
        (nonWrites (badGatewayHandler
          (ServeHTTP Arch.w64 freshWriter phoneRequest badGatewayHandler).r).1).foldl
          ResponseWriter.apply freshWriter ∧
      (ServeHTTP Arch.w64 freshWriter phoneRequest badGatewayHandler).w.writes = [] ∧
      (ServeHTTP Arch.w64 freshWriter phoneRequest badGatewayHandler).w.statusCalls = [502] ∧
      (ServeHTTP Arch.w64 freshWriter phoneRequest badGatewayHandler).err =
        some { msg := "bad gateway" }) :=
  have hd := next_called_exactly_once Arch.w64 freshWriter desktopRequest badGatewayHandler
  have hp := next_called_exactly_once Arch.w64 freshWriter phoneRequest badGatewayHandler
  have hdc : (ServeHTTP Arch.w64 freshWriter desktopRequest badGatewayHandler).calls =
      [(Sink.real, (ServeHTTP Arch.w64 freshWriter desktopRequest badGatewayHandler).r)] := by
    rw [ServeHTTP_not_mobile Arch.w64 freshWriter desktopRequest badGatewayHandler (by decide)]
    rfl
  have hpc : (ServeHTTP Arch.w64 freshWriter phoneRequest badGatewayHandler).calls =
      [(Sink.capture, (ServeHTTP Arch.w64 freshWriter phoneRequest badGatewayHandler).r)] :=
    ServeHTTP_capture_calls Arch.w64 freshWriter phoneRequest badGatewayHandler (by decide)
      (Or.inl (by rw [← HasSuffix_iff]; decide))
  ⟨⟨hdc, hd.2.2.2.2.2.2.2.1 hdc, by decide, hd.2.2.2.2.2.1, hd.2.2.2.2.1⟩,
    ⟨hpc, hp.2.2.2.2.2.2.2.2.2.1 hpc { msg := "bad gateway" } rfl, by decide,
      hp.2.2.2.2.2.1, hp.2.2.2.2.1⟩⟩

end DeviceValidator
